import Mathlib

/-!
# Gomoku engine of `script.js`: shallow embedding and verified properties

The JavaScript globals (`currentPlayer`, `gameActive`, `boardState`, `gameMode`,
`aiDifficulty`, `isAiThinking`) become the fields of `GameState`; every function of
the script that reads or writes them becomes a pure function on that record.

Modelling conventions
* `boardState` is a 15 x 15 grid: `Board` is a function on `Fin 15 × Fin 15`.
  A cell is `none` (JS `null`) or `some p` (the string `'black'` / `'white'`).
* JS numbers that index the board are `Int` (the scans compute `row - dx * i`,
  which can be negative); `isValidCell` guards every read exactly as in the source.
* `Math.random()` is an explicit argument, a rational `u` with `0 ≤ u < 1`
  (`Draw`); `Math.floor(u * n)` is the exact floor of the exact product.
* The heuristic score `evaluatePosition` is computed in exact rational arithmetic
  (`ℚ`): the literals `0.1` and `0.2` are `1/10` and `2/10`, where the script
  rounds every product and sum to a double.  Results that compare scores across a
  margin use this model.  The selection loop of `getHeuristicMove` is also
  embedded for an arbitrary scoring function (`getHeuristicMoveWith`): a finite
  double is a rational and `>` and `===` on finite doubles are `<` and `=` on
  `ℚ`, so what is proved for every scoring function holds for the rounded scores
  of the script as well.
* `-Infinity` is `none : Option ℚ`.
* DOM writes are dropped, except `winnerTitle.textContent`, the only record of
  whether a finished game was a win or a draw, and the timers created by
  `setTimeout(makeAiMove, 500)`, counted in `pendingAiMoves`.
-/

namespace Gomoku

/-! ## Data model -/

/-- The two colours, the JS strings `'black'` and `'white'`. -/
inductive Player where
  | black
  | white
  deriving DecidableEq, Repr

/-- A board cell: `none` is JS `null`. -/
abbrev Cell := Option Player

/-- `const BOARD_SIZE = 15;` -/
abbrev BOARD_SIZE : Nat := 15

/-- The grid `boardState[row][col]`. -/
abbrev Board := Fin BOARD_SIZE → Fin BOARD_SIZE → Cell

/-- `Array(BOARD_SIZE).fill(null).map(() => Array(BOARD_SIZE).fill(null))` -/
def emptyBoard : Board := fun _ _ => none

/-- The values of `gameMode`. -/
inductive GameMode where
  | pvp
  | pve
  deriving DecidableEq, Repr

/-- A move object `{ row: r, col: c }`; the coordinates are JS numbers. -/
structure Move where
  row : Int
  col : Int
  deriving DecidableEq, Repr

/-- A value of `Math.random()`: a rational in `[0, 1)`. -/
structure Draw where
  val : ℚ
  nonneg : 0 ≤ val
  lt_one : val < 1

/-- The mutable globals of the script. -/
structure GameState where
  currentPlayer : Player
  gameActive : Bool
  boardState : Board
  gameMode : GameMode
  aiDifficulty : Int
  isAiThinking : Bool
  winnerTitle : String
  pendingAiMoves : Nat

/-! ## Board access -/

/-- `isValidCell(row, col)` -/
def isValidCell (row col : Int) : Bool :=
  decide (row ≥ 0) && decide (row < BOARD_SIZE) && decide (col ≥ 0) && decide (col < BOARD_SIZE)

/-- The read `boardState[r][c]` for integer indices.  Every read in the script is
guarded by `isValidCell` or ranges over `0 .. BOARD_SIZE - 1`; outside the grid the
model returns `none`, a value no caller depends on. -/
def readCell (b : Board) (r c : Int) : Cell :=
  if h : (0 ≤ r ∧ r < BOARD_SIZE) ∧ (0 ≤ c ∧ c < BOARD_SIZE) then
    b ⟨r.toNat, by have := h.1.1; have := h.1.2; omega⟩
      ⟨c.toNat, by have := h.2.1; have := h.2.2; omega⟩
  else none

/-- The write `boardState[row][col] = v` for integer indices.  Every write in the
script targets a cell of the grid; outside the grid the model changes nothing. -/
def writeCell (b : Board) (row col : Int) (v : Cell) : Board :=
  fun r c => if (r.val : Int) = row ∧ (c.val : Int) = col then v else b r c

/-! ## Win and draw detection -/

/-- The four axis directions `[[0, 1], [1, 0], [1, 1], [1, -1]]`. -/
def directions : List (Int × Int) := [(0, 1), (1, 0), (1, 1), (1, -1)]

/-- The values taken by `i` in `for (let i = 1; i < 5; i++)`. -/
def scanSteps : List Int := [1, 2, 3, 4]

/-- One counting loop of `checkWin`, run over the remaining values of `i`:
`if (isValidCell(r, c) && boardState[r][c] === player) count++; else break;`
where `pos i` is the pair `(r, c)` computed from `i`. -/
def winScan (b : Board) (player : Player) (pos : Int → Int × Int) : List Int → Nat → Nat
  | [], count => count
  | i :: rest, count =>
    if isValidCell (pos i).1 (pos i).2 && decide (readCell b (pos i).1 (pos i).2 = some player) then
      winScan b player pos rest (count + 1)
    else count

/-- The body of the `for (const [dx, dy] of directions)` loop of `checkWin`: the
final value of `count` for one axis. -/
def winCount (b : Board) (row col : Int) (player : Player) (d : Int × Int) : Nat :=
  let count := 1
  let count := winScan b player (fun i => (row + d.1 * i, col + d.2 * i)) scanSteps count
  winScan b player (fun i => (row - d.1 * i, col - d.2 * i)) scanSteps count

/-- `checkWin(row, col, player)` -/
def checkWin (b : Board) (row col : Int) (player : Player) : Bool :=
  directions.any (fun d => decide (winCount b row col player d ≥ 5))

/-- `checkDraw()`: `boardState.every(row => row.every(cell => cell !== null))` -/
def checkDraw (b : Board) : Bool :=
  (List.finRange BOARD_SIZE).all (fun r =>
    (List.finRange BOARD_SIZE).all (fun c => decide (b r c ≠ none)))

/-! ## Move selection -/

/-- The scoring loop of `evaluateLine` for one leg, run over the remaining values
of `i`; the accumulator is the pair `(count, blocked)` and `pos i` is `(r, c)`. -/
def lineScan (b : Board) (player : Player) (pos : Int → Int × Int) :
    List Int → Nat × Nat → Nat × Nat
  | [], acc => acc
  | i :: rest, (count, blocked) =>
    if !isValidCell (pos i).1 (pos i).2 then (count, blocked + 1)
    else if readCell b (pos i).1 (pos i).2 = some player then
      lineScan b player pos rest (count + 1, blocked)
    else if readCell b (pos i).1 (pos i).2 ≠ none then (count, blocked + 1)
    else (count, blocked)

/-- The `// Scoring logic` chain of `evaluateLine`, applied to the final
`count` and `blocked`. -/
def scoringLogic (count blocked : Nat) : Nat :=
  if count ≥ 4 then 10000
  else if count = 3 ∧ blocked = 0 then 1000
  else if count = 3 ∧ blocked = 1 then 100
  else if count = 2 ∧ blocked = 0 then 100
  else if count = 2 ∧ blocked = 1 then 10
  else if count = 1 ∧ blocked = 0 then 10
  else 0

/-- `evaluateLine(row, col, dx, dy, player)` -/
def evaluateLine (b : Board) (row col dx dy : Int) (player : Player) : Nat :=
  let acc := lineScan b player (fun i => (row + dx * i, col + dy * i)) scanSteps (0, 0)
  let acc := lineScan b player (fun i => (row - dx * i, col - dy * i)) scanSteps acc
  scoringLogic acc.1 acc.2

/-- `evaluatePosition(row, col)`; reads `boardState` and `aiDifficulty`. -/
def evaluatePosition (b : Board) (aiDifficulty : Int) (row col : Int) : ℚ :=
  let score : ℚ := 0
  let center : Int := BOARD_SIZE / 2
  let score := score - ((|row - center| + |col - center| : Int) : ℚ)
  directions.foldl (fun score d =>
    let score := score
      + (evaluateLine b row col d.1 d.2 Player.white : ℚ) * (1 + (aiDifficulty : ℚ) * 0.1)
    score + (evaluateLine b row col d.1 d.2 Player.black : ℚ) * (1 + (aiDifficulty : ℚ) * 0.2))
    score

/-- The element `list[Math.floor(Math.random() * list.length)]`, `none` for
`undefined`. -/
def randomElement (list : List Move) (u : Draw) : Option Move :=
  list[(⌊u.val * (list.length : ℚ)⌋).toNat]?

/-- `getRandomMove()` -/
def getRandomMove (b : Board) (u : Draw) : Option Move :=
  let emptyCells : List Move :=
    (List.finRange BOARD_SIZE).foldl (fun emptyCells r =>
      (List.finRange BOARD_SIZE).foldl (fun emptyCells c =>
        if b r c = none then emptyCells ++ [{ row := r.val, col := c.val }] else emptyCells)
        emptyCells) []
  randomElement emptyCells u

/-- The comparison `score > bestScore`, where `bestScore` may be `-Infinity`. -/
def scoreGt (score : ℚ) : Option ℚ → Bool
  | none => true
  | some best => decide (score > best)

/-- The body of the inner loop of `getHeuristicMove` at cell `(r, c)`; the
accumulator is the pair `(bestScore, bestMoves)`. -/
def heuristicStep (b : Board) (aiDifficulty : Int) (acc : Option ℚ × List Move)
    (r c : Fin BOARD_SIZE) : Option ℚ × List Move :=
  if b r c = none then
    let score := evaluatePosition b aiDifficulty r.val c.val
    if scoreGt score acc.1 then (some score, [{ row := r.val, col := c.val }])
    else if acc.1 = some score then (acc.1, acc.2 ++ [{ row := r.val, col := c.val }])
    else acc
  else acc

/-- `getHeuristicMove()` -/
def getHeuristicMove (b : Board) (aiDifficulty : Int) (u : Draw) : Option Move :=
  let acc : Option ℚ × List Move :=
    (List.finRange BOARD_SIZE).foldl (fun acc r =>
      (List.finRange BOARD_SIZE).foldl (fun acc c => heuristicStep b aiDifficulty acc r c) acc)
      (none, [])
  randomElement acc.2 u

/-- The body of the inner loop of `getHeuristicMove` at cell `(r, c)`, where
`score r c` is the number the call `evaluatePosition(r, c)` returns; the
accumulator is the pair `(bestScore, bestMoves)`. -/
def heuristicStepWith (score : Int → Int → ℚ) (b : Board) (acc : Option ℚ × List Move)
    (r c : Fin BOARD_SIZE) : Option ℚ × List Move :=
  if b r c = none then
    let score := score r.val c.val
    if scoreGt score acc.1 then (some score, [{ row := r.val, col := c.val }])
    else if acc.1 = some score then (acc.1, acc.2 ++ [{ row := r.val, col := c.val }])
    else acc
  else acc

/-- `getHeuristicMove()`, where `score r c` is the number the call
`evaluatePosition(r, c)` returns during the loops (the board and the difficulty
do not change while they run). -/
def getHeuristicMoveWith (score : Int → Int → ℚ) (b : Board) (u : Draw) : Option Move :=
  let acc : Option ℚ × List Move :=
    (List.finRange BOARD_SIZE).foldl (fun acc r =>
      (List.finRange BOARD_SIZE).foldl (fun acc c => heuristicStepWith score b acc r c) acc)
      (none, [])
  randomElement acc.2 u

/-- `getBestMove()` -/
def getBestMove (s : GameState) (u : Draw) : Option Move :=
  if s.aiDifficulty ≤ 3 then getRandomMove s.boardState u
  else getHeuristicMove s.boardState s.aiDifficulty u

/-! ## Game controller -/

/-- `currentPlayer.charAt(0).toUpperCase() + currentPlayer.slice(1)` -/
def capitalized : Player → String
  | Player.black => "Black"
  | Player.white => "White"

/-- `placePiece(row, col, cell)` -/
def placePiece (s : GameState) (row col : Int) : GameState :=
  { s with boardState := writeCell s.boardState row col (some s.currentPlayer) }

/-- `switchTurn()` -/
def switchTurn (s : GameState) : GameState :=
  let s := { s with
    currentPlayer := if s.currentPlayer = Player.black then Player.white else Player.black }
  if s.gameMode = GameMode.pve ∧ s.currentPlayer = Player.white ∧ s.gameActive = true then
    { s with isAiThinking := true, pendingAiMoves := s.pendingAiMoves + 1 }
  else s

/-- `endGame(isDraw)` -/
def endGame (s : GameState) (isDraw : Bool) : GameState :=
  { s with
    gameActive := false
    isAiThinking := false
    winnerTitle := if isDraw then "It\x27s a Draw!" else capitalized s.currentPlayer ++ " Wins!" }

/-- `handleCellClick(e)`, where `row` and `col` are read from the clicked cell. -/
def handleCellClick (s : GameState) (row col : Int) : GameState :=
  if !s.gameActive || s.isAiThinking then s
  else if (readCell s.boardState row col).isSome then s
  else
    let s := placePiece s row col
    if checkWin s.boardState row col s.currentPlayer then endGame s false
    else if checkDraw s.boardState then endGame s true
    else switchTurn s

/-- `makeAiMove()`, with the value `Math.random()` will return. -/
def makeAiMove (s : GameState) (u : Draw) : GameState :=
  if !s.gameActive then s
  else
    match getBestMove s u with
    | some move =>
      let s := placePiece s move.row move.col
      if checkWin s.boardState move.row move.col s.currentPlayer then endGame s false
      else if checkDraw s.boardState then endGame s true
      else switchTurn { s with isAiThinking := false }
    | none => s

/-- `restartGame()` -/
def restartGame (s : GameState) : GameState :=
  { s with
    gameActive := true
    isAiThinking := false
    currentPlayer := Player.black
    boardState := emptyBoard }

/-- `toggleAiMode()` -/
def toggleAiMode (s : GameState) : GameState :=
  if s.gameMode = GameMode.pvp then restartGame { s with gameMode := GameMode.pve }
  else restartGame { s with gameMode := GameMode.pvp }

/-- The `change` listener of `difficultySelect`:
`aiDifficulty = parseInt(e.target.value)`. -/
def difficultyChange (s : GameState) (level : Int) : GameState :=
  { s with aiDifficulty := level }

/-- A timer created by `setTimeout(makeAiMove, 500)` fires: it leaves the set of
pending timers and runs `makeAiMove`. -/
def aiTimerFires (s : GameState) (u : Draw) : GameState :=
  if s.pendingAiMoves = 0 then s
  else makeAiMove { s with pendingAiMoves := s.pendingAiMoves - 1 } u

/-- The state after the top-level statements of the script have run; the text of
`winnerTitle` comes from the page. -/
def initialState (title : String) : GameState :=
  { currentPlayer := Player.black
    gameActive := true
    boardState := emptyBoard
    gameMode := GameMode.pve
    aiDifficulty := 5
    isAiThinking := false
    winnerTitle := title
    pendingAiMoves := 0 }

/-! ## Specification-side notions -/

/-- The colour that is not `p`. -/
def other : Player → Player
  | Player.black => Player.white
  | Player.white => Player.black

/-- Cell `(r, c)` lies on the grid and holds a stone of `p`. -/
def holds (b : Board) (p : Player) (r c : Int) : Prop :=
  isValidCell r c = true ∧ readCell b r c = some p

/-- On the axis `d` there is a contiguous run of at least five cells, all holding
stones of `p`, that contains `(row, col)`: the cells at offsets `lo .. hi` along
the axis, with `lo ≤ 0 ≤ hi`. -/
def runThrough (b : Board) (p : Player) (row col : Int) (d : Int × Int) : Prop :=
  ∃ lo hi : Int, lo ≤ 0 ∧ 0 ≤ hi ∧ hi - lo + 1 ≥ 5 ∧
    ∀ k : Int, lo ≤ k → k ≤ hi → holds b p (row + d.1 * k) (col + d.2 * k)

/-- The loop test of `checkWin` at step `i`. -/
def winHit (b : Board) (p : Player) (pos : Int → Int × Int) (i : Int) : Bool :=
  isValidCell (pos i).1 (pos i).2 && decide (readCell b (pos i).1 (pos i).2 = some p)

/-- The number of leading steps of `1, 2, 3, 4` that pass the test `f`. -/
def leading (f : Int → Bool) : Nat := (scanSteps.takeWhile f).length

/-! ## Concrete boards and states -/

/-- The board holding exactly the listed stones, given as `((row, col), colour)`. -/
def boardOf (stones : List ((Nat × Nat) × Player)) : Board :=
  fun r c => stones.lookup (r.val, c.val)

/-- Five black stones in row 7, columns 7 to 11. -/
def fiveInRow : Board :=
  boardOf [((7, 7), Player.black), ((7, 8), Player.black), ((7, 9), Player.black),
    ((7, 10), Player.black), ((7, 11), Player.black)]

/-! ## The cell enumeration of the selectors -/

/-- The cells in the order visited by the nested `for` loops over `r` and `c`. -/
def allCells : List (Fin BOARD_SIZE × Fin BOARD_SIZE) :=
  (List.finRange BOARD_SIZE).flatMap (fun r => (List.finRange BOARD_SIZE).map (fun c => (r, c)))

/-- The move object `{ row: r, col: c }` of a grid cell. -/
def moveOf (rc : Fin BOARD_SIZE × Fin BOARD_SIZE) : Move :=
  { row := rc.1.val, col := rc.2.val }

/-- The list `emptyCells` built by `getRandomMove`. -/
def emptyCellsOf (b : Board) : List Move :=
  (List.finRange BOARD_SIZE).foldl (fun emptyCells r =>
    (List.finRange BOARD_SIZE).foldl (fun emptyCells c =>
      if b r c = none then emptyCells ++ [{ row := r.val, col := c.val }] else emptyCells)
      emptyCells) []

/-- The pair `(bestScore, bestMoves)` at the end of the loops of `getHeuristicMove`. -/
def bestOf (b : Board) (aiDifficulty : Int) : Option ℚ × List Move :=
  (List.finRange BOARD_SIZE).foldl (fun acc r =>
    (List.finRange BOARD_SIZE).foldl (fun acc c => heuristicStep b aiDifficulty acc r c) acc)
    (none, [])

/-- The move is a cell of the grid and that cell is empty. -/
def isEmptyCell (b : Board) (m : Move) : Prop :=
  isValidCell m.row m.col = true ∧ readCell b m.row m.col = none

/-- The pair `(bestScore, bestMoves)` at the end of the loops of
`getHeuristicMoveWith`. -/
def bestOfWith (score : Int → Int → ℚ) (b : Board) : Option ℚ × List Move :=
  (List.finRange BOARD_SIZE).foldl (fun acc r =>
    (List.finRange BOARD_SIZE).foldl (fun acc c => heuristicStepWith score b acc r c) acc)
    (none, [])

/-- The loop invariant of `getHeuristicMove` after the cells `pre` have been
visited: `bestScore` is the largest score of an empty cell of `pre` and
`bestMoves` holds exactly the empty cells of `pre` with that score. -/
def bestInv (score : Int → Int → ℚ) (b : Board) (pre : List (Fin BOARD_SIZE × Fin BOARD_SIZE))
    (acc : Option ℚ × List Move) : Prop :=
  (acc.1 = none → acc.2 = [] ∧ ∀ rc ∈ pre, b rc.1 rc.2 ≠ none)
  ∧ ∀ best : ℚ, acc.1 = some best →
      (∀ m : Move, m ∈ acc.2 ↔ ∃ rc ∈ pre, b rc.1 rc.2 = none
          ∧ score rc.1.val rc.2.val = best ∧ m = moveOf rc)
      ∧ (∃ rc ∈ pre, b rc.1 rc.2 = none ∧ score rc.1.val rc.2.val = best)
      ∧ ∀ rc ∈ pre, b rc.1 rc.2 = none → score rc.1.val rc.2.val ≤ best

/-- Every cell of the grid holds a stone. -/
def boardFull (b : Board) : Prop := ∀ r c : Fin BOARD_SIZE, b r c ≠ none

/-- The board with a black stone on every cell. -/
def fullBoard : Board := fun _ _ => some Player.black

/-- The draw `Math.random() = 0`. -/
def zeroDraw : Draw := { val := 0, nonneg := le_refl 0, lt_one := by norm_num }

/-! ## Specification-side notions for the line scanner -/

/-- The line-scoring table: `count ≥ 4` gives 10000, `(3, 0)` 1000, `(3, 1)` 100,
`(2, 0)` 100, `(2, 1)` 10, `(1, 0)` 10, and every other pair 0. -/
def lineTable (count blocked : Nat) : Nat :=
  if 4 ≤ count then 10000
  else
    match count, blocked with
    | 3, 0 => 1000
    | 3, 1 => 100
    | 2, 0 => 100
    | 2, 1 => 10
    | 1, 0 => 10
    | _, _ => 0

/-- The cell at step `i` stops a leg for `p` as a blocker: it is off the grid or
holds a stone of the other colour. -/
def blockedAt (b : Board) (p : Player) (pos : Int → Int × Int) (i : Int) : Bool :=
  !isValidCell (pos i).1 (pos i).2 || decide (readCell b (pos i).1 (pos i).2 = some (other p))

/-- The count of one leg: the number of contiguous stones of `p` adjacent to the
origin along `pos`, at most 4. -/
def legCount (b : Board) (p : Player) (pos : Int → Int × Int) : Nat :=
  leading (winHit b p pos)

/-- One leg is blocked: it ended, within the four scanned steps, at a board edge
or at an opposing stone. -/
def legBlocked (b : Board) (p : Player) (pos : Int → Int × Int) : Bool :=
  decide (legCount b p pos < 4) && blockedAt b p pos ((legCount b p pos : Int) + 1)

/-- The number of blocked legs among the given two: 0, 1 or 2. -/
def blockedLegs (fwd bwd : Bool) : Nat :=
  (if fwd then 1 else 0) + (if bwd then 1 else 0)

/-- The indicator of the two legs: 1 if either leg is blocked, else 0. -/
def eitherBlocked (fwd bwd : Bool) : Nat :=
  if fwd || bwd then 1 else 0

/-- Three white stones in row 7, columns 8 to 10, with black stones at both ends
of the line through the empty cell `(7, 7)`: at `(7, 6)` and `(7, 11)`. -/
def deadThree : Board :=
  boardOf [((7, 6), Player.black), ((7, 8), Player.white), ((7, 9), Player.white),
    ((7, 10), Player.white), ((7, 11), Player.black)]

/-! ## Specification-side notions for the position score -/

/-- The contribution of one axis to `evaluatePosition`: the offence term for white
plus the defence term for black. -/
def axisScore (b : Board) (aiDifficulty : Int) (row col : Int) (d : Int × Int) : ℚ :=
  (evaluateLine b row col d.1 d.2 Player.white : ℚ) * (1 + (aiDifficulty : ℚ) * 0.1)
    + (evaluateLine b row col d.1 d.2 Player.black : ℚ) * (1 + (aiDifficulty : ℚ) * 0.2)

/-- Two black stones at `(7, 7)`, `(7, 8)` and one white stone at `(2, 2)`. -/
def threeAndTwo : Board :=
  boardOf [((7, 7), Player.black), ((7, 8), Player.black), ((2, 2), Player.white)]

/-! ## Specification-side notions for the winning move -/

/-- Player `p` has exactly four contiguous stones on one axis, at offsets `0 .. 3`
from `(r, c)`, with an empty cell of the grid at an end of that run. -/
def openFour (b : Board) (p : Player) : Prop :=
  ∃ d ∈ directions, ∃ r c : Int,
    (∀ k : Int, 0 ≤ k → k ≤ 3 → holds b p (r + d.1 * k) (c + d.2 * k))
    ∧ ¬ holds b p (r + d.1 * (-1)) (c + d.2 * (-1))
    ∧ ¬ holds b p (r + d.1 * 4) (c + d.2 * 4)
    ∧ (isEmptyCell b { row := r + d.1 * (-1), col := c + d.2 * (-1) }
        ∨ isEmptyCell b { row := r + d.1 * 4, col := c + d.2 * 4 })

/-- The move is a completing cell for `p`: an empty cell of the grid at which
placing a stone of `p` makes `checkWin` true for `p`. -/
def completesFive (b : Board) (p : Player) (m : Move) : Prop :=
  isEmptyCell b m ∧ checkWin (writeCell b m.row m.col (some p)) m.row m.col p = true

/-- Four white stones in row 7 and four black stones in row 3, columns 5 to 8. -/
def twoFours : Board :=
  boardOf [((7, 5), Player.white), ((7, 6), Player.white), ((7, 7), Player.white),
    ((7, 8), Player.white), ((3, 5), Player.black), ((3, 6), Player.black),
    ((3, 7), Player.black), ((3, 8), Player.black)]

/-- Four white stones in row 7, columns 5 to 8, and nothing else. -/
def whiteFour : Board :=
  boardOf [((7, 5), Player.white), ((7, 6), Player.white), ((7, 7), Player.white),
    ((7, 8), Player.white)]

/-! ## The controller: signals, terminal states and reset -/

/-- The error kinds a caller could be told about. -/
inductive MoveError where
  | OutOfBounds
  | CellOccupied
  | GameOver
  | BoardFull
  | WrongTurn
  deriving DecidableEq, Repr

/-- The value `handleCellClick(e)` hands back to its caller, along the same
branches as `handleCellClick`: both guards end in a bare `return;` and the body
ends without a `return`, so the caller receives `undefined` (`none`) each time. -/
def handleCellClickReturn (s : GameState) (row col : Int) : Option MoveError :=
  if !s.gameActive || s.isAiThinking then none
  else if (readCell s.boardState row col).isSome then none
  else none

/-- The state of a game in `pvp` mode after black has played the centre. -/
def afterCentre : GameState :=
  handleCellClick { initialState "" with gameMode := GameMode.pvp } 7 7

/-- A finished game: the initial state after `endGame(true)`. -/
def finishedGame : GameState := endGame (initialState "") true

/-- Four black stones in row 7, columns 7 to 10, and nothing else. -/
def fourInRow : Board :=
  boardOf [((7, 7), Player.black), ((7, 8), Player.black), ((7, 9), Player.black),
    ((7, 10), Player.black)]

/-! ## Specification-side notions for the probed cell and the run of the page -/

/-- Stones of `p` adjoin `(row, col)` contiguously on the axis `d` and, with that
cell, span at least five cells: every cell at an offset `lo .. hi` other than 0
holds a stone of `p`, where `lo ≤ 0 ≤ hi` and `hi - lo ≥ 4`. -/
def adjoinsFour (b : Board) (p : Player) (row col : Int) (d : Int × Int) : Prop :=
  ∃ lo hi : Int, lo ≤ 0 ∧ 0 ≤ hi ∧ hi - lo ≥ 4 ∧
    ∀ k : Int, lo ≤ k → k ≤ hi → k ≠ 0 → holds b p (row + d.1 * k) (col + d.2 * k)

/-- One step of the page: a handler runs on a user event, or a timer created by
`setTimeout(makeAiMove, 500)` fires. -/
inductive Step : GameState → GameState → Prop where
  | click (s : GameState) (row col : Int) (h : isValidCell row col = true) :
      Step s (handleCellClick s row col)
  | restart (s : GameState) : Step s (restartGame s)
  | toggle (s : GameState) : Step s (toggleAiMode s)
  | difficulty (s : GameState) (level : Int) : Step s (difficultyChange s level)
  | timer (s : GameState) (u : Draw) (h : 0 < s.pendingAiMoves) : Step s (aiTimerFires s u)

/-- The states the page can reach from its initial state. -/
inductive Reachable (title : String) : GameState → Prop where
  | init : Reachable title (initialState title)
  | step {s t : GameState} : Reachable title s → Step s t → Reachable title t

/-- Black plays the centre against the machine and the game is restarted before
the machine's timer has fired. -/
def restartedWhileThinking : GameState :=
  restartGame (handleCellClick (initialState "") 7 7)

/-! # Theorems -/

/-! ## Win detection -/

theorem winHit_iff (b : Board) (p : Player) (pos : Int → Int × Int) (i : Int) :
    winHit b p pos i = true ↔ holds b p (pos i).1 (pos i).2 := by
  simp [winHit, holds]

theorem winScan_eq (b : Board) (p : Player) (pos : Int → Int × Int) (l : List Int) (count : Nat) :
    winScan b p pos l count = count + (l.takeWhile (winHit b p pos)).length := by
  induction l generalizing count with
  | nil => simp [winScan]
  | cons i rest ih =>
    by_cases h : winHit b p pos i = true
    · have h' := h
      unfold winHit at h'
      simp only [winScan, h', if_true, ih, List.takeWhile_cons, h, List.length_cons]
      omega
    · have h' := h
      unfold winHit at h'
      simp [winScan, h', List.takeWhile_cons, h]

theorem leading_le (f : Int → Bool) : leading f ≤ 4 := by
  unfold leading scanSteps
  simp only [List.takeWhile_cons, List.takeWhile_nil]
  repeat' split
  all_goals simp

theorem leading_hit (f : Int → Bool) (k : Int) (h1 : 1 ≤ k) (h2 : k ≤ leading f) :
    f k = true := by
  unfold leading scanSteps at h2
  simp only [List.takeWhile_cons, List.takeWhile_nil] at h2
  by_contra hk
  have e : ∀ j : Int, j = k → f j = false := fun j hj => by subst hj; simpa using hk
  split at h2
  · split at h2
    · split at h2
      · split at h2
        · have : k = 1 ∨ k = 2 ∨ k = 3 ∨ k = 4 := by simp at h2; omega
          rcases this with h | h | h | h <;> simp_all
        · have : k = 1 ∨ k = 2 ∨ k = 3 := by simp at h2; omega
          rcases this with h | h | h <;> simp_all
      · have : k = 1 ∨ k = 2 := by simp at h2; omega
        rcases this with h | h <;> simp_all
    · have : k = 1 := by simp at h2; omega
      simp_all
  · simp at h2; omega

theorem le_leading (f : Int → Bool) (n : Nat) (hn : n ≤ 4)
    (h : ∀ k : Int, 1 ≤ k → k ≤ n → f k = true) : n ≤ leading f := by
  unfold leading scanSteps
  simp only [List.takeWhile_cons, List.takeWhile_nil]
  interval_cases n
  · omega
  · have := h 1 (by norm_num) (by norm_num)
    simp [this]
  · have := h 1 (by norm_num) (by norm_num)
    have := h 2 (by norm_num) (by norm_num)
    simp [*]
  · have := h 1 (by norm_num) (by norm_num)
    have := h 2 (by norm_num) (by norm_num)
    have := h 3 (by norm_num) (by norm_num)
    simp [*]
  · have := h 1 (by norm_num) (by norm_num)
    have := h 2 (by norm_num) (by norm_num)
    have := h 3 (by norm_num) (by norm_num)
    have := h 4 (by norm_num) (by norm_num)
    simp [*]

theorem winCount_eq (b : Board) (row col : Int) (p : Player) (d : Int × Int) :
    winCount b row col p d
      = 1 + leading (winHit b p (fun i => (row + d.1 * i, col + d.2 * i)))
          + leading (winHit b p (fun i => (row - d.1 * i, col - d.2 * i))) := by
  simp [winCount, winScan_eq, leading]

theorem winCount_ge_five_iff (b : Board) (row col : Int) (p : Player) (d : Int × Int)
    (h0 : holds b p row col) :
    winCount b row col p d ≥ 5 ↔ runThrough b p row col d := by
  rw [winCount_eq]
  set f := winHit b p (fun i => (row + d.1 * i, col + d.2 * i)) with hf
  set g := winHit b p (fun i => (row - d.1 * i, col - d.2 * i)) with hg
  constructor
  · intro h
    refine ⟨-(leading g : Int), (leading f : Int), by omega, by omega, by omega, ?_⟩
    intro k hlo hhi
    rcases lt_trichotomy k 0 with hk | hk | hk
    · have := leading_hit g (-k) (by omega) (by omega)
      rw [hg, winHit_iff] at this
      simpa using this
    · subst hk
      simpa using h0
    · have := leading_hit f k (by omega) (by omega)
      rw [hf, winHit_iff] at this
      simpa using this
  · rintro ⟨lo, hi, hlo, hhi, hlen, hall⟩
    have h1 : (min hi 4).toNat ≤ leading f := by
      apply le_leading f _ (by omega)
      intro k hk1 hk2
      rw [hf, winHit_iff]
      exact hall k (by omega) (by omega)
    have h2 : (min (-lo) 4).toNat ≤ leading g := by
      apply le_leading g _ (by omega)
      intro k hk1 hk2
      rw [hg, winHit_iff]
      have := hall (-k) (by omega) (by omega)
      simpa [sub_eq_add_neg] using this
    omega

/-- C1: for a probed cell that holds a stone of `p`, `checkWin` is true exactly when
some axis carries a contiguous run of at least five stones of `p` through the cell
(longer runs included). -/
theorem checkWin_iff_run (b : Board) (row col : Int) (p : Player)
    (hvalid : isValidCell row col = true) (hstone : readCell b row col = some p) :
    checkWin b row col p = true ↔ ∃ d ∈ directions, runThrough b p row col d := by
  unfold checkWin
  rw [List.any_eq_true]
  constructor
  · rintro ⟨d, hd, h⟩
    exact ⟨d, hd, (winCount_ge_five_iff b row col p d ⟨hvalid, hstone⟩).1 (by simpa using h)⟩
  · rintro ⟨d, hd, h⟩
    exact ⟨d, hd, by simpa using (winCount_ge_five_iff b row col p d ⟨hvalid, hstone⟩).2 h⟩

/-- Witness for C1: the fifth stone of a horizontal five. -/
theorem checkWin_iff_run_witness :
    isValidCell 7 11 = true ∧ readCell fiveInRow 7 11 = some Player.black
    ∧ (checkWin fiveInRow 7 11 Player.black = true
        ↔ ∃ d ∈ directions, runThrough fiveInRow Player.black 7 11 d) :=
  ⟨by decide, by decide, checkWin_iff_run fiveInRow 7 11 Player.black (by decide) (by decide)⟩

/-! ## Draw detection and the click handler -/

/-- C2: `checkDraw` is true exactly when each of the 225 cells holds a stone. -/
theorem checkDraw_iff_full (b : Board) :
    checkDraw b = true ↔ ∀ r c : Fin BOARD_SIZE, b r c ≠ none := by
  simp [checkDraw, List.all_eq_true]

theorem readCell_writeCell_same (b : Board) (row col : Int) (v : Cell)
    (hvalid : isValidCell row col = true) : readCell (writeCell b row col v) row col = v := by
  simp only [isValidCell, Bool.and_eq_true, decide_eq_true_eq] at hvalid
  have h : (0 ≤ row ∧ row < BOARD_SIZE) ∧ (0 ≤ col ∧ col < BOARD_SIZE) := by omega
  simp only [readCell, h, and_self, dif_pos, writeCell]
  rw [if_pos]
  constructor
  · simp; omega
  · simp; omega

theorem switchTurn_boardState (s : GameState) : (switchTurn s).boardState = s.boardState := by
  unfold switchTurn
  dsimp only
  split_ifs <;> rfl

theorem switchTurn_gameActive (s : GameState) : (switchTurn s).gameActive = s.gameActive := by
  unfold switchTurn
  dsimp only
  split_ifs <;> rfl

theorem switchTurn_currentPlayer (s : GameState) :
    (switchTurn s).currentPlayer = other s.currentPlayer := by
  unfold switchTurn
  dsimp only
  cases hp : s.currentPlayer <;> split_ifs <;> simp_all [other]

theorem win_title_ne_draw (p : Player) : capitalized p ++ " Wins!" ≠ "It\x27s a Draw!" := by
  cases p <;> decide

/-- C3: a click on an empty cell of the grid while the game is active and the
machine is not thinking places the stone of `currentPlayer`; then a win ends the
game for that player (also when the board is now full), else a full board ends it
as a draw, else the turn passes and the machine starts thinking exactly in `pve`
mode with white to move. -/
theorem handleCellClick_valid_move (s : GameState) (row col : Int)
    (hactive : s.gameActive = true) (hidle : s.isAiThinking = false)
    (hvalid : isValidCell row col = true) (hempty : readCell s.boardState row col = none) :
    (handleCellClick s row col).boardState
        = writeCell s.boardState row col (some s.currentPlayer)
    ∧ readCell (handleCellClick s row col).boardState row col = some s.currentPlayer
    ∧ (checkWin (writeCell s.boardState row col (some s.currentPlayer)) row col s.currentPlayer
          = true →
        (handleCellClick s row col).gameActive = false
        ∧ (handleCellClick s row col).currentPlayer = s.currentPlayer
        ∧ (handleCellClick s row col).winnerTitle = capitalized s.currentPlayer ++ " Wins!"
        ∧ (handleCellClick s row col).winnerTitle ≠ "It\x27s a Draw!")
    ∧ (checkWin (writeCell s.boardState row col (some s.currentPlayer)) row col s.currentPlayer
          = false →
        checkDraw (writeCell s.boardState row col (some s.currentPlayer)) = true →
        (handleCellClick s row col).gameActive = false
        ∧ (handleCellClick s row col).winnerTitle = "It\x27s a Draw!")
    ∧ (checkWin (writeCell s.boardState row col (some s.currentPlayer)) row col s.currentPlayer
          = false →
        checkDraw (writeCell s.boardState row col (some s.currentPlayer)) = false →
        (handleCellClick s row col).gameActive = true
        ∧ (handleCellClick s row col).currentPlayer = other s.currentPlayer
        ∧ ((handleCellClick s row col).isAiThinking = true ↔
            s.gameMode = GameMode.pve
            ∧ (handleCellClick s row col).currentPlayer = Player.white)) := by
  have hb : (handleCellClick s row col).boardState
      = writeCell s.boardState row col (some s.currentPlayer) := by
    simp only [handleCellClick, hactive, hidle, hempty, placePiece]
    simp only [Bool.not_true, Bool.or_self, Bool.false_eq_true, if_false, Option.isSome_none]
    split
    · rfl
    · split
      · rfl
      · rw [switchTurn_boardState]
  refine ⟨hb, ?_, ?_, ?_, ?_⟩
  · rw [hb]; exact readCell_writeCell_same _ _ _ _ hvalid
  · intro hw
    simp [handleCellClick, hactive, hidle, hempty, placePiece, hw, endGame, win_title_ne_draw]
  · intro hw hd
    simp [handleCellClick, hactive, hidle, hempty, placePiece, hw, hd, endGame]
  · intro hw hd
    simp only [handleCellClick, hactive, hidle, hempty, placePiece, hw, hd, switchTurn]
    cases hp : s.currentPlayer <;> cases hm : s.gameMode <;> simp [other, hactive, hidle]

/-- Witness for C3: the opening click on the centre of the initial board. -/
theorem handleCellClick_valid_move_witness :
    (handleCellClick (initialState "") 7 7).boardState
        = writeCell emptyBoard 7 7 (some Player.black)
    ∧ (handleCellClick (initialState "") 7 7).currentPlayer = Player.white
    ∧ (handleCellClick (initialState "") 7 7).isAiThinking = true :=
  have h := handleCellClick_valid_move (initialState "") 7 7 rfl rfl (by decide) (by decide)
  ⟨h.1, (h.2.2.2.2 (by decide) (by decide)).2.1,
    (h.2.2.2.2 (by decide) (by decide)).2.2.2 ⟨rfl, (h.2.2.2.2 (by decide) (by decide)).2.1⟩⟩

/-! ## The selectors: enumeration and random choice -/

theorem nested_foldl {α β γ : Type} (f : γ → α → β → γ) (l₁ : List α) (l₂ : List β) (init : γ) :
    l₁.foldl (fun acc r => l₂.foldl (fun acc c => f acc r c) acc) init
      = (l₁.flatMap (fun r => l₂.map (fun c => (r, c)))).foldl (fun acc rc => f acc rc.1 rc.2) init := by
  induction l₁ generalizing init with
  | nil => rfl
  | cons r rest ih =>
    simp only [List.foldl_cons, List.flatMap_cons, List.foldl_append, List.foldl_map]
    exact ih _

theorem mem_allCells (rc : Fin BOARD_SIZE × Fin BOARD_SIZE) : rc ∈ allCells := by
  simp only [allCells, List.mem_flatMap, List.mem_map, List.mem_finRange, true_and]
  exact ⟨rc.1, rc.2, rfl⟩

theorem foldl_push_filter {α β : Type} (p : α → Prop) [DecidablePred p] (g : α → β)
    (l : List α) (init : List β) :
    l.foldl (fun acc x => if p x then acc ++ [g x] else acc) init
      = init ++ (l.filter (fun x => decide (p x))).map g := by
  induction l generalizing init with
  | nil => simp
  | cons x rest ih =>
    by_cases h : p x <;> simp [List.foldl_cons, ih, h, List.filter_cons]

theorem emptyCellsOf_eq (b : Board) :
    emptyCellsOf b = (allCells.filter (fun rc => decide (b rc.1 rc.2 = none))).map moveOf := by
  unfold emptyCellsOf
  refine (nested_foldl (fun (acc : List Move) r c =>
    if b r c = none then acc ++ [moveOf (r, c)] else acc) _ _ []).trans ?_
  have := foldl_push_filter (fun rc : Fin BOARD_SIZE × Fin BOARD_SIZE => b rc.1 rc.2 = none)
    moveOf allCells []
  simpa [allCells] using this

theorem readCell_coe (b : Board) (r c : Fin BOARD_SIZE) :
    readCell b (r.val : Int) (c.val : Int) = b r c := by
  have hr := r.isLt
  have hc := c.isLt
  have h : (0 ≤ (r.val : Int) ∧ (r.val : Int) < BOARD_SIZE)
      ∧ (0 ≤ (c.val : Int) ∧ (c.val : Int) < BOARD_SIZE) := by omega
  simp [readCell, h]

theorem isValidCell_coe (r c : Fin BOARD_SIZE) :
    isValidCell (r.val : Int) (c.val : Int) = true := by
  have hr := r.isLt
  have hc := c.isLt
  simp only [isValidCell, Bool.and_eq_true, decide_eq_true_eq]
  omega

theorem isValidCell_iff (row col : Int) :
    isValidCell row col = true ↔ ∃ r c : Fin BOARD_SIZE, row = r.val ∧ col = c.val := by
  constructor
  · intro h
    simp only [isValidCell, Bool.and_eq_true, decide_eq_true_eq] at h
    exact ⟨⟨row.toNat, by omega⟩, ⟨col.toNat, by omega⟩, by simp; omega, by simp; omega⟩
  · rintro ⟨r, c, rfl, rfl⟩
    exact isValidCell_coe r c

theorem isEmptyCell_iff (b : Board) (m : Move) :
    isEmptyCell b m ↔ ∃ rc : Fin BOARD_SIZE × Fin BOARD_SIZE, b rc.1 rc.2 = none ∧ m = moveOf rc := by
  constructor
  · rintro ⟨hv, he⟩
    obtain ⟨r, c, hr, hc⟩ := (isValidCell_iff _ _).1 hv
    refine ⟨(r, c), ?_, ?_⟩
    · rw [hr, hc, readCell_coe] at he
      exact he
    · cases m
      simp only [moveOf] at *
      simp [hr, hc]
  · rintro ⟨rc, he, rfl⟩
    exact ⟨isValidCell_coe _ _, by simpa [moveOf, readCell_coe] using he⟩

theorem mem_emptyCellsOf (b : Board) (m : Move) : m ∈ emptyCellsOf b ↔ isEmptyCell b m := by
  rw [emptyCellsOf_eq, isEmptyCell_iff]
  simp only [List.mem_map, List.mem_filter, decide_eq_true_eq]
  constructor
  · rintro ⟨rc, ⟨-, he⟩, rfl⟩
    exact ⟨rc, he, rfl⟩
  · rintro ⟨rc, he, rfl⟩
    exact ⟨rc, ⟨mem_allCells rc, he⟩, rfl⟩

theorem randomIndex_lt (n : Nat) (hn : 0 < n) (u : Draw) :
    (⌊u.val * (n : ℚ)⌋).toNat < n := by
  have hpos : (0 : ℚ) < n := by exact_mod_cast hn
  have h1 : u.val * (n : ℚ) < n := by
    have := mul_lt_mul_of_pos_right u.lt_one hpos
    simpa using this
  have h2 : ⌊u.val * (n : ℚ)⌋ < (n : Int) := by
    rw [Int.floor_lt]
    exact_mod_cast h1
  have h3 : 0 ≤ ⌊u.val * (n : ℚ)⌋ := Int.floor_nonneg.2 (mul_nonneg u.nonneg hpos.le)
  omega

theorem randomElement_eq_none_iff (list : List Move) (u : Draw) :
    randomElement list u = none ↔ list = [] := by
  unfold randomElement
  rw [List.getElem?_eq_none_iff]
  constructor
  · intro h
    by_contra hne
    have hn : 0 < list.length := List.length_pos.2 hne
    have := randomIndex_lt list.length hn u
    omega
  · rintro rfl
    simp

theorem randomElement_mem (list : List Move) (u : Draw) (m : Move)
    (h : randomElement list u = some m) : m ∈ list := by
  unfold randomElement at h
  exact List.getElem?_mem h

theorem randomElement_reaches (list : List Move) (m : Move) (h : m ∈ list) :
    ∃ u : Draw, randomElement list u = some m := by
  obtain ⟨i, hi, rfl⟩ := List.getElem_of_mem h
  have hpos : (0 : ℚ) < list.length := by
    have : 0 < list.length := by omega
    exact_mod_cast this
  refine ⟨⟨(i : ℚ) / list.length, by positivity, ?_⟩, ?_⟩
  · rw [div_lt_one hpos]
    exact_mod_cast hi
  · unfold randomElement
    have : (i : ℚ) / list.length * list.length = i := by field_simp
    simp only [this]
    simp [hi]

/-- The moves `list[Math.floor(Math.random() * list.length)]` can produce are
exactly the members of the list. -/
theorem randomElement_range (list : List Move) (m : Move) :
    (∃ u : Draw, randomElement list u = some m) ↔ m ∈ list :=
  ⟨fun ⟨u, h⟩ => randomElement_mem list u m h, randomElement_reaches list m⟩

/-! ## The heuristic selector: loop invariant -/

theorem foldl_invariant {α β : Type} (f : β → α → β) (P : List α → β → Prop)
    (hstep : ∀ pre x acc, P pre acc → P (pre ++ [x]) (f acc x)) :
    ∀ (l pre : List α) (acc : β), P pre acc → P (pre ++ l) (l.foldl f acc) := by
  intro l
  induction l with
  | nil => intro pre acc h; simpa using h
  | cons x rest ih =>
    intro pre acc h
    have := ih (pre ++ [x]) (f acc x) (hstep pre x acc h)
    simpa [List.append_assoc] using this

theorem bestInv_step (score : Int → Int → ℚ) (b : Board) (pre : List (Fin BOARD_SIZE × Fin BOARD_SIZE))
    (rc : Fin BOARD_SIZE × Fin BOARD_SIZE) (acc : Option ℚ × List Move)
    (h : bestInv score b pre acc) :
    bestInv score b (pre ++ [rc]) (heuristicStepWith score b acc rc.1 rc.2) := by
  obtain ⟨best, moves⟩ := acc
  obtain ⟨hnone, hsome⟩ := h
  unfold heuristicStepWith
  by_cases he : b rc.1 rc.2 = none
  · simp only [he, if_true]
    cases best with
    | none =>
      obtain ⟨hnil, hfull⟩ := hnone rfl
      simp only at hnil
      subst hnil
      simp only [scoreGt, if_true]
      refine ⟨fun h => by simp at h, ?_⟩
      intro M hM
      simp only [Option.some.injEq] at hM
      subst hM
      refine ⟨?_, ⟨rc, by simp, he, rfl⟩, ?_⟩
      · intro m
        constructor
        · intro hm
          simp only [List.mem_singleton] at hm
          exact ⟨rc, by simp, he, rfl, by simpa [moveOf] using hm⟩
        · rintro ⟨rc', hmem, he', -, rfl⟩
          rcases List.mem_append.1 hmem with h' | h'
          · exact absurd he' (hfull rc' h')
          · simp only [List.mem_singleton] at h'
            subst h'
            simp [moveOf]
      · intro rc' hmem he'
        rcases List.mem_append.1 hmem with h' | h'
        · exact absurd he' (hfull rc' h')
        · simp only [List.mem_singleton] at h'
          subst h'
          exact le_refl _
    | some M =>
      obtain ⟨hmem, hex, hle⟩ := hsome M rfl
      simp only at hmem
      rcases lt_trichotomy (score rc.1.val rc.2.val) M with hlt | heq | hgt
      · -- lower score: the accumulator is unchanged
        have h1 : scoreGt (score rc.1.val rc.2.val) (some M) = false := by
          simp [scoreGt, hlt.le]
        have h2 : ¬ (some M = some (score rc.1.val rc.2.val)) := by
          simp only [Option.some.injEq]
          exact fun h => absurd h.symm hlt.ne
        simp only [h1, h2, if_false, Bool.false_eq_true]
        refine ⟨fun h => by simp at h, ?_⟩
        intro M' hM'
        simp only [Option.some.injEq] at hM'
        subst hM'
        refine ⟨?_, ?_, ?_⟩
        · intro m
          rw [hmem m]
          constructor
          · rintro ⟨rc', h', rest⟩
            exact ⟨rc', List.mem_append_left _ h', rest⟩
          · rintro ⟨rc', h', he', hs, rfl⟩
            rcases List.mem_append.1 h' with h'' | h''
            · exact ⟨rc', h'', he', hs, rfl⟩
            · simp only [List.mem_singleton] at h''
              subst h''
              exact absurd hs hlt.ne
        · obtain ⟨rc', h', rest⟩ := hex
          exact ⟨rc', List.mem_append_left _ h', rest⟩
        · intro rc' h' he'
          rcases List.mem_append.1 h' with h'' | h''
          · exact hle rc' h'' he'
          · simp only [List.mem_singleton] at h''
            subst h''
            exact hlt.le
      · -- equal score: the cell is appended
        have h1 : scoreGt (score rc.1.val rc.2.val) (some M) = false := by
          simp [scoreGt, heq]
        simp only [h1, if_false, Bool.false_eq_true]
        rw [if_pos (congrArg some heq.symm)]
        refine ⟨fun h => by simp at h, ?_⟩
        intro M' hM'
        simp only [Option.some.injEq] at hM'
        subst hM'
        refine ⟨?_, ⟨rc, by simp, he, heq⟩, ?_⟩
        · intro m
          rw [List.mem_append, hmem m]
          constructor
          · rintro (⟨rc', h', rest⟩ | h')
            · exact ⟨rc', List.mem_append_left _ h', rest⟩
            · simp only [List.mem_singleton] at h'
              exact ⟨rc, by simp, he, heq, by simpa [moveOf] using h'⟩
          · rintro ⟨rc', h', he', hs, rfl⟩
            rcases List.mem_append.1 h' with h'' | h''
            · exact Or.inl ⟨rc', h'', he', hs, rfl⟩
            · simp only [List.mem_singleton] at h''
              subst h''
              right
              simp [moveOf]
        · intro rc' h' he'
          rcases List.mem_append.1 h' with h'' | h''
          · exact hle rc' h'' he'
          · simp only [List.mem_singleton] at h''
            subst h''
            exact heq.le
      · -- higher score: the list restarts with this cell
        have h1 : scoreGt (score rc.1.val rc.2.val) (some M) = true := by
          simp [scoreGt, hgt]
        simp only [h1, if_true]
        refine ⟨fun h => by simp at h, ?_⟩
        intro M' hM'
        simp only [Option.some.injEq] at hM'
        subst hM'
        refine ⟨?_, ⟨rc, by simp, he, rfl⟩, ?_⟩
        · intro m
          constructor
          · intro hm
            simp only [List.mem_singleton] at hm
            exact ⟨rc, by simp, he, rfl, by simpa [moveOf] using hm⟩
          · rintro ⟨rc', h', he', hs, rfl⟩
            rcases List.mem_append.1 h' with h'' | h''
            · have := hle rc' h'' he'
              rw [hs] at this
              exact absurd this (not_le.2 hgt)
            · simp only [List.mem_singleton] at h''
              subst h''
              simp [moveOf]
        · intro rc' h' he'
          rcases List.mem_append.1 h' with h'' | h''
          · exact (hle rc' h'' he').trans hgt.le
          · simp only [List.mem_singleton] at h''
            subst h''
            exact le_refl _
  · simp only [he, if_false]
    refine ⟨?_, ?_⟩
    · intro hn
      obtain ⟨hnil, hfull⟩ := hnone hn
      refine ⟨hnil, ?_⟩
      intro rc' h'
      rcases List.mem_append.1 h' with h'' | h''
      · exact hfull rc' h''
      · simp only [List.mem_singleton] at h''
        subst h''
        exact he
    · intro M hM
      obtain ⟨hmem, hex, hle⟩ := hsome M hM
      refine ⟨?_, ?_, ?_⟩
      · intro m
        rw [hmem m]
        constructor
        · rintro ⟨rc', h', rest⟩
          exact ⟨rc', List.mem_append_left _ h', rest⟩
        · rintro ⟨rc', h', he', hs, rfl⟩
          rcases List.mem_append.1 h' with h'' | h''
          · exact ⟨rc', h'', he', hs, rfl⟩
          · simp only [List.mem_singleton] at h''
            subst h''
            exact absurd he' he
      · obtain ⟨rc', h', rest⟩ := hex
        exact ⟨rc', List.mem_append_left _ h', rest⟩
      · intro rc' h' he'
        rcases List.mem_append.1 h' with h'' | h''
        · exact hle rc' h'' he'
        · simp only [List.mem_singleton] at h''
          subst h''
          exact absurd he' he

theorem bestOfWith_inv (score : Int → Int → ℚ) (b : Board) :
    bestInv score b allCells (bestOfWith score b) := by
  have h0 : bestInv score b [] (none, []) := by
    refine ⟨fun _ => ⟨rfl, by simp⟩, fun M h => by simp at h⟩
  have := foldl_invariant (fun acc rc => heuristicStepWith score b acc rc.1 rc.2) (bestInv score b)
    (fun pre rc acc h => bestInv_step score b pre rc acc h) allCells [] (none, []) h0
  unfold bestOfWith
  rw [nested_foldl (fun acc r c => heuristicStepWith score b acc r c)]
  simpa [allCells] using this

/-- The final `bestMoves` holds exactly the empty cells whose score is maximal
among the empty cells. -/
theorem mem_bestMovesWith (score : Int → Int → ℚ) (b : Board) (m : Move) :
    m ∈ (bestOfWith score b).2 ↔
      isEmptyCell b m ∧ ∀ m' : Move, isEmptyCell b m' →
        score m'.row m'.col ≤ score m.row m.col := by
  obtain ⟨hnone, hsome⟩ := bestOfWith_inv score b
  constructor
  · intro hm
    cases hbest : (bestOfWith score b).1 with
    | none =>
      rw [(hnone hbest).1] at hm
      simp at hm
    | some M =>
      obtain ⟨hmem, -, hle⟩ := hsome M hbest
      obtain ⟨rc, -, he, hs, rfl⟩ := (hmem m).1 hm
      refine ⟨(isEmptyCell_iff b _).2 ⟨rc, he, rfl⟩, ?_⟩
      intro m' hm'
      obtain ⟨rc', he', rfl⟩ := (isEmptyCell_iff b m').1 hm'
      simp only [moveOf]
      rw [hs]
      exact hle rc' (mem_allCells rc') he'
  · rintro ⟨hm, hmax⟩
    obtain ⟨rc, he, rfl⟩ := (isEmptyCell_iff b m).1 hm
    cases hbest : (bestOfWith score b).1 with
    | none => exact absurd he ((hnone hbest).2 rc (mem_allCells rc))
    | some M =>
      obtain ⟨hmem, ⟨rc0, -, he0, hs0⟩, hle⟩ := hsome M hbest
      refine (hmem _).2 ⟨rc, mem_allCells rc, he, ?_, rfl⟩
      apply le_antisymm (hle rc (mem_allCells rc) he)
      have := hmax (moveOf rc0) ((isEmptyCell_iff b _).2 ⟨rc0, he0, rfl⟩)
      simp only [moveOf] at this
      rw [hs0] at this
      exact this

theorem bestMovesWith_eq_nil_iff (score : Int → Int → ℚ) (b : Board) :
    (bestOfWith score b).2 = [] ↔ ∀ r c : Fin BOARD_SIZE, b r c ≠ none := by
  obtain ⟨hnone, hsome⟩ := bestOfWith_inv score b
  constructor
  · intro hnil r c
    cases hbest : (bestOfWith score b).1 with
    | none => exact (hnone hbest).2 (r, c) (mem_allCells (r, c))
    | some M =>
      obtain ⟨hmem, ⟨rc0, h0, he0, hs0⟩, -⟩ := hsome M hbest
      have := (hmem (moveOf rc0)).2 ⟨rc0, h0, he0, hs0, rfl⟩
      rw [hnil] at this
      simp at this
  · intro hfull
    cases hbest : (bestOfWith score b).1 with
    | none => exact (hnone hbest).1
    | some M =>
      obtain ⟨-, ⟨rc0, -, he0, -⟩, -⟩ := hsome M hbest
      exact absurd he0 (hfull rc0.1 rc0.2)

theorem bestOf_eq_with (b : Board) (d : Int) :
    bestOf b d = bestOfWith (evaluatePosition b d) b := rfl

theorem getHeuristicMove_eq_with (b : Board) (d : Int) (u : Draw) :
    getHeuristicMove b d u = getHeuristicMoveWith (evaluatePosition b d) b u := rfl

/-- The final `bestMoves` holds exactly the empty cells whose score is maximal
among the empty cells. -/
theorem mem_bestMoves (b : Board) (d : Int) (m : Move) :
    m ∈ (bestOf b d).2 ↔
      isEmptyCell b m ∧ ∀ m' : Move, isEmptyCell b m' →
        evaluatePosition b d m'.row m'.col ≤ evaluatePosition b d m.row m.col := by
  rw [bestOf_eq_with]
  exact mem_bestMovesWith (evaluatePosition b d) b m

theorem bestMoves_eq_nil_iff (b : Board) (d : Int) :
    (bestOf b d).2 = [] ↔ ∀ r c : Fin BOARD_SIZE, b r c ≠ none := by
  rw [bestOf_eq_with]
  exact bestMovesWith_eq_nil_iff (evaluatePosition b d) b

theorem emptyCellsOf_eq_nil_iff (b : Board) :
    emptyCellsOf b = [] ↔ ∀ r c : Fin BOARD_SIZE, b r c ≠ none := by
  constructor
  · intro hnil r c he
    have : moveOf (r, c) ∈ emptyCellsOf b :=
      (mem_emptyCellsOf b _).2 ((isEmptyCell_iff b _).2 ⟨(r, c), he, rfl⟩)
    rw [hnil] at this
    simp at this
  · intro hfull
    apply List.eq_nil_iff_forall_not_mem.2
    intro m hm
    obtain ⟨rc, he, -⟩ := (isEmptyCell_iff b m).1 ((mem_emptyCellsOf b m).1 hm)
    exact hfull rc.1 rc.2 he

/-- C4: the moves `getHeuristicMove` can return, over all draws, are exactly the
empty cells whose score is maximal among the empty cells, whatever number
`evaluatePosition` returns at each cell (`score`): so for every difficulty, and
for the scores as the script computes them in double precision. -/
theorem getHeuristicMove_range (score : Int → Int → ℚ) (b : Board) (m : Move) :
    (∃ u : Draw, getHeuristicMoveWith score b u = some m) ↔
      isEmptyCell b m ∧ ∀ m' : Move, isEmptyCell b m' →
        score m'.row m'.col ≤ score m.row m.col := by
  rw [← mem_bestMovesWith]
  exact randomElement_range (bestOfWith score b).2 m

/-- C8: the moves `getRandomMove` can return, over all draws, are exactly the empty
cells of the grid; with a single empty cell every draw returns it. -/
theorem getRandomMove_range (b : Board) :
    (∀ m : Move, (∃ u : Draw, getRandomMove b u = some m) ↔ isEmptyCell b m)
    ∧ (∀ m : Move, isEmptyCell b m → (∀ m' : Move, isEmptyCell b m' → m' = m) →
        ∀ u : Draw, getRandomMove b u = some m) := by
  constructor
  · intro m
    rw [← mem_emptyCellsOf]
    exact randomElement_range (emptyCellsOf b) m
  · intro m hm huniq u
    cases h : getRandomMove b u with
    | none =>
      have hnil : emptyCellsOf b = [] := (randomElement_eq_none_iff _ u).1 h
      have := (mem_emptyCellsOf b m).2 hm
      rw [hnil] at this
      simp at this
    | some m' =>
      have : m' ∈ emptyCellsOf b := randomElement_mem _ u m' h
      rw [huniq m' ((mem_emptyCellsOf b m').1 this)]

/-! ## The selectors on a full board, and moves never overwrite -/

theorem getBestMove_some (s : GameState) (u : Draw) (m : Move)
    (h : getBestMove s u = some m) : isEmptyCell s.boardState m := by
  unfold getBestMove at h
  split at h
  · exact (mem_emptyCellsOf _ m).1 (randomElement_mem _ u m h)
  · exact ((mem_bestMoves _ _ m).1 (randomElement_mem _ u m h)).1

theorem getRandomMove_eq_none_iff (b : Board) (u : Draw) :
    getRandomMove b u = none ↔ boardFull b :=
  (randomElement_eq_none_iff (emptyCellsOf b) u).trans (emptyCellsOf_eq_nil_iff b)

theorem getHeuristicMove_eq_none_iff (b : Board) (d : Int) (u : Draw) :
    getHeuristicMove b d u = none ↔ boardFull b :=
  (randomElement_eq_none_iff (bestOf b d).2 u).trans (bestMoves_eq_nil_iff b d)

theorem getBestMove_eq_none_iff (s : GameState) (u : Draw) :
    getBestMove s u = none ↔ boardFull s.boardState := by
  unfold getBestMove
  split
  · exact getRandomMove_eq_none_iff _ u
  · exact getHeuristicMove_eq_none_iff _ _ u

/-- C9: each selector returns no move exactly when the board has no empty cell, a
returned move is always an empty cell of the grid, and on a full board
`makeAiMove` changes neither the board nor `currentPlayer` nor `gameActive`. -/
theorem no_move_iff_board_full (s : GameState) (u : Draw) :
    (getBestMove s u = none ↔ boardFull s.boardState)
    ∧ (getRandomMove s.boardState u = none ↔ boardFull s.boardState)
    ∧ (getHeuristicMove s.boardState s.aiDifficulty u = none ↔ boardFull s.boardState)
    ∧ (∀ m : Move, getBestMove s u = some m → isEmptyCell s.boardState m)
    ∧ (boardFull s.boardState →
        (makeAiMove s u).boardState = s.boardState
        ∧ (makeAiMove s u).currentPlayer = s.currentPlayer
        ∧ (makeAiMove s u).gameActive = s.gameActive) := by
  refine ⟨getBestMove_eq_none_iff s u, getRandomMove_eq_none_iff _ u,
    getHeuristicMove_eq_none_iff _ _ u, fun m h => getBestMove_some s u m h, ?_⟩
  intro hfull
  have hnone : getBestMove s u = none := (getBestMove_eq_none_iff s u).2 hfull
  have : makeAiMove s u = s := by
    unfold makeAiMove
    split
    · rfl
    · rw [hnone]
  rw [this]
  exact ⟨rfl, rfl, rfl⟩

theorem writeCell_keeps (b : Board) (row col : Int) (v : Cell)
    (hempty : readCell b row col = none) (r c : Fin BOARD_SIZE) (h : b r c ≠ none) :
    writeCell b row col v r c = b r c := by
  unfold writeCell
  split
  · rename_i heq
    obtain ⟨h1, h2⟩ := heq
    rw [← h1, ← h2, readCell_coe] at hempty
    exact absurd hempty h
  · rfl

theorem endGame_boardState (s : GameState) (isDraw : Bool) :
    (endGame s isDraw).boardState = s.boardState := rfl

/-- The board after the controller has placed at `(row, col)` and run the
win / draw / switch logic is the board after `placePiece`. -/
theorem after_place_boardState (s : GameState) (row col : Int) :
    (if checkWin (placePiece s row col).boardState row col (placePiece s row col).currentPlayer
      then endGame (placePiece s row col) false
      else if checkDraw (placePiece s row col).boardState then endGame (placePiece s row col) true
      else switchTurn (placePiece s row col)).boardState
      = writeCell s.boardState row col (some s.currentPlayer) := by
  split
  · rfl
  · split
    · rfl
    · rw [switchTurn_boardState]
      rfl

theorem handleCellClick_boardState (s : GameState) (row col : Int) :
    (handleCellClick s row col).boardState = s.boardState
    ∨ (readCell s.boardState row col = none
        ∧ (handleCellClick s row col).boardState
            = writeCell s.boardState row col (some s.currentPlayer)) := by
  unfold handleCellClick
  split
  · exact Or.inl rfl
  · split
    · exact Or.inl rfl
    · rename_i hocc
      right
      refine ⟨?_, after_place_boardState s row col⟩
      cases h : readCell s.boardState row col with
      | none => rfl
      | some p => simp [h] at hocc

theorem makeAiMove_boardState (s : GameState) (u : Draw) :
    (makeAiMove s u).boardState = s.boardState
    ∨ ∃ m : Move, isEmptyCell s.boardState m
        ∧ (makeAiMove s u).boardState
            = writeCell s.boardState m.row m.col (some s.currentPlayer) := by
  unfold makeAiMove
  split
  · exact Or.inl rfl
  · cases h : getBestMove s u with
    | none => exact Or.inl rfl
    | some m =>
      right
      refine ⟨m, getBestMove_some s u m h, ?_⟩
      dsimp only
      split
      · rfl
      · split
        · rfl
        · rw [switchTurn_boardState]
          rfl

/-- C10: a click (at any coordinates) and a machine move each leave every stone
where it is and change at most one cell, an empty one, to the colour of
`currentPlayer`; a difficulty change leaves the board alone, and the board is
emptied by `restartGame` (also when called from `toggleAiMode`). -/
theorem moves_never_overwrite (s : GameState) (row col : Int) (u : Draw) (level : Int) :
    ((∀ r c : Fin BOARD_SIZE, s.boardState r c ≠ none →
        (handleCellClick s row col).boardState r c = s.boardState r c)
      ∧ ((handleCellClick s row col).boardState = s.boardState
        ∨ (readCell s.boardState row col = none
          ∧ (handleCellClick s row col).boardState
              = writeCell s.boardState row col (some s.currentPlayer))))
    ∧ ((∀ r c : Fin BOARD_SIZE, s.boardState r c ≠ none →
        (makeAiMove s u).boardState r c = s.boardState r c)
      ∧ ((makeAiMove s u).boardState = s.boardState
        ∨ ∃ m : Move, isEmptyCell s.boardState m
          ∧ (makeAiMove s u).boardState
              = writeCell s.boardState m.row m.col (some s.currentPlayer)))
    ∧ (difficultyChange s level).boardState = s.boardState
    ∧ (restartGame s).boardState = emptyBoard
    ∧ (toggleAiMode s).boardState = emptyBoard := by
  refine ⟨⟨?_, handleCellClick_boardState s row col⟩, ⟨?_, makeAiMove_boardState s u⟩,
    rfl, rfl, ?_⟩
  · intro r c h
    rcases handleCellClick_boardState s row col with h' | ⟨he, h'⟩
    · rw [h']
    · rw [h']
      exact writeCell_keeps _ _ _ _ he r c h
  · intro r c h
    rcases makeAiMove_boardState s u with h' | ⟨m, hm, h'⟩
    · rw [h']
    · rw [h']
      exact writeCell_keeps _ _ _ _ hm.2 r c h
  · unfold toggleAiMode
    split <;> rfl

/-! ## The line scanner of the heuristic -/

theorem other_of_ne (p q : Player) (h : q ≠ p) : q = other p := by
  cases p <;> cases q <;> simp_all [other]

theorem other_ne (p : Player) : other p ≠ p := by
  cases p <;> simp [other]

/-- One leg of `evaluateLine` over any list of steps: `count` grows by the number
of leading hits and `blocked` by one when the first miss is a blocker. -/
theorem lineScan_eq (b : Board) (p : Player) (pos : Int → Int × Int) (l : List Int)
    (count blocked : Nat) :
    lineScan b p pos l (count, blocked)
      = (count + (l.takeWhile (winHit b p pos)).length,
         blocked + (match (l.dropWhile (winHit b p pos)).head? with
            | some i => if blockedAt b p pos i then 1 else 0
            | none => 0)) := by
  induction l generalizing count with
  | nil => simp [lineScan]
  | cons i rest ih =>
    by_cases hv : isValidCell (pos i).1 (pos i).2 = true
    · by_cases hp : readCell b (pos i).1 (pos i).2 = some p
      · have hit : winHit b p pos i = true := by simp [winHit, hv, hp]
        simp only [lineScan, hv, hp, Bool.not_true, Bool.false_eq_true, if_false, if_true, ih,
          List.takeWhile_cons, List.dropWhile_cons, hit, List.length_cons]
        congr 1
        omega
      · have hit : winHit b p pos i = false := by simp [winHit, hv, hp]
        by_cases hn : readCell b (pos i).1 (pos i).2 = none
        · simp [lineScan, hv, hp, hn, List.takeWhile_cons, List.dropWhile_cons, hit, blockedAt]
        · obtain ⟨q, hq⟩ := Option.ne_none_iff_exists'.1 hn
          have hqp : q ≠ p := fun h => hp (by rw [hq, h])
          have : q = other p := other_of_ne p q hqp
          subst this
          simp [lineScan, hv, hq, other_ne, List.takeWhile_cons, List.dropWhile_cons, hit,
            blockedAt]
    · have hit : winHit b p pos i = false := by simp [winHit, hv]
      simp [lineScan, hv, List.takeWhile_cons, List.dropWhile_cons, hit, blockedAt]

theorem dropWhile_scanSteps (f : Int → Bool) :
    (scanSteps.dropWhile f).head?
      = if leading f < 4 then some ((leading f : Int) + 1) else none := by
  unfold leading scanSteps
  simp only [List.takeWhile_cons, List.dropWhile_cons, List.takeWhile_nil, List.dropWhile_nil]
  cases f 1 <;> cases f 2 <;> cases f 3 <;> cases f 4 <;> simp

theorem lineScan_scanSteps (b : Board) (p : Player) (pos : Int → Int × Int)
    (count blocked : Nat) :
    lineScan b p pos scanSteps (count, blocked)
      = (count + legCount b p pos, blocked + if legBlocked b p pos then 1 else 0) := by
  rw [lineScan_eq, dropWhile_scanSteps]
  unfold legBlocked legCount leading
  by_cases h : (List.takeWhile (winHit b p pos) scanSteps).length < 4
  · simp only [leading] at *
    simp [h]
  · simp only [leading] at *
    simp [h]

theorem scoringLogic_eq_lineTable (count blocked : Nat) :
    scoringLogic count blocked = lineTable count blocked := by
  unfold scoringLogic lineTable
  by_cases h4 : 4 ≤ count
  · simp [h4]
  · have hc : count = 0 ∨ count = 1 ∨ count = 2 ∨ count = 3 := by omega
    rcases hc with rfl | rfl | rfl | rfl
    · simp
    · rcases Nat.eq_zero_or_pos blocked with rfl | hb
      · simp
      · obtain ⟨k, rfl⟩ : ∃ k, blocked = k + 1 := ⟨blocked - 1, by omega⟩
        simp
    · rcases Nat.eq_zero_or_pos blocked with rfl | hb
      · simp
      · obtain ⟨k, rfl⟩ : ∃ k, blocked = k + 1 := ⟨blocked - 1, by omega⟩
        rcases Nat.eq_zero_or_pos k with rfl | hk
        · simp
        · obtain ⟨j, rfl⟩ : ∃ j, k = j + 1 := ⟨k - 1, by omega⟩
          simp
    · rcases Nat.eq_zero_or_pos blocked with rfl | hb
      · simp
      · obtain ⟨k, rfl⟩ : ∃ k, blocked = k + 1 := ⟨blocked - 1, by omega⟩
        rcases Nat.eq_zero_or_pos k with rfl | hk
        · simp
        · obtain ⟨j, rfl⟩ : ∃ j, k = j + 1 := ⟨k - 1, by omega⟩
          simp

/-- The result of `evaluateLine` in terms of the two legs. -/
theorem evaluateLine_eq (b : Board) (row col dx dy : Int) (p : Player) :
    evaluateLine b row col dx dy p
      = scoringLogic
          (legCount b p (fun i => (row + dx * i, col + dy * i))
            + legCount b p (fun i => (row - dx * i, col - dy * i)))
          (blockedLegs (legBlocked b p (fun i => (row + dx * i, col + dy * i)))
            (legBlocked b p (fun i => (row - dx * i, col - dy * i)))) := by
  unfold evaluateLine blockedLegs
  simp only [lineScan_scanSteps, Nat.zero_add]

/-- C6, as amended: `evaluateLine` is the line-scoring table applied to the sum of
the two legs' counts (each at most 4) and to the number of blocked legs, which is
0, 1 or 2; a line blocked on both legs with fewer than four stones scores 0. -/
theorem evaluateLine_table (b : Board) (row col dx dy : Int) (p : Player) :
    evaluateLine b row col dx dy p
      = lineTable
          (legCount b p (fun i => (row + dx * i, col + dy * i))
            + legCount b p (fun i => (row - dx * i, col - dy * i)))
          (blockedLegs (legBlocked b p (fun i => (row + dx * i, col + dy * i)))
            (legBlocked b p (fun i => (row - dx * i, col - dy * i))))
    ∧ legCount b p (fun i => (row + dx * i, col + dy * i)) ≤ 4
    ∧ legCount b p (fun i => (row - dx * i, col - dy * i)) ≤ 4 := by
  refine ⟨?_, leading_le _, leading_le _⟩
  rw [evaluateLine_eq, scoringLogic_eq_lineTable]

/-- C6, counterexample: at `(7, 7)` of `deadThree`, horizontally for white, the
count is 3 and both legs are blocked; `evaluateLine` returns 0 while the table
applied to `blocked = 1` gives 100. -/
theorem evaluateLine_both_legs_blocked :
    isValidCell 7 7 = true ∧ ((0 : Int), (1 : Int)) ∈ directions
    ∧ evaluateLine deadThree 7 7 0 1 Player.white = 0
    ∧ lineTable
        (legCount deadThree Player.white (fun i => (7 + 0 * i, 7 + 1 * i))
          + legCount deadThree Player.white (fun i => (7 - 0 * i, 7 - 1 * i)))
        (eitherBlocked (legBlocked deadThree Player.white (fun i => (7 + 0 * i, 7 + 1 * i)))
          (legBlocked deadThree Player.white (fun i => (7 - 0 * i, 7 - 1 * i)))) = 100 := by
  decide

/-! ## The position score -/

theorem evaluatePosition_eq (b : Board) (d : Int) (row col : Int) :
    evaluatePosition b d row col
      = -((|row - 7| + |col - 7| : Int) : ℚ)
        + axisScore b d row col (0, 1) + axisScore b d row col (1, 0)
        + axisScore b d row col (1, 1) + axisScore b d row col (1, -1) := by
  simp only [evaluatePosition, directions, List.foldl, axisScore]
  norm_num
  ring

theorem axisScore_eq (b : Board) (d : Int) (row col : Int) (dir : Int × Int) :
    axisScore b d row col dir
      = (evaluateLine b row col dir.1 dir.2 Player.white : ℚ) * (1 + (d : ℚ) / 10)
        + (evaluateLine b row col dir.1 dir.2 Player.black : ℚ) * (1 + (d : ℚ) / 5) := by
  unfold axisScore
  norm_num
  ring

theorem axisScore_nonneg (b : Board) (d : Int) (hd : 0 ≤ d) (row col : Int) (dir : Int × Int) :
    0 ≤ axisScore b d row col dir := by
  unfold axisScore
  have hq : (0 : ℚ) ≤ d := by exact_mod_cast hd
  have h1 : (0 : ℚ) ≤ (evaluateLine b row col dir.1 dir.2 Player.white : ℚ) := Nat.cast_nonneg _
  have h2 : (0 : ℚ) ≤ (evaluateLine b row col dir.1 dir.2 Player.black : ℚ) := Nat.cast_nonneg _
  have h3 : (0 : ℚ) ≤ 1 + (d : ℚ) * 0.1 := by norm_num; linarith
  have h4 : (0 : ℚ) ≤ 1 + (d : ℚ) * 0.2 := by norm_num; linarith
  exact add_nonneg (mul_nonneg h1 h3) (mul_nonneg h2 h4)

theorem centre_distance_le (row col : Int) (h : isValidCell row col = true) :
    |row - 7| + |col - 7| ≤ 14 := by
  simp only [isValidCell, Bool.and_eq_true, decide_eq_true_eq] at h
  have h15 : (BOARD_SIZE : Int) = 15 := rfl
  rw [h15] at h
  have h1 : |row - 7| ≤ 7 := abs_le.2 ⟨by omega, by omega⟩
  have h2 : |col - 7| ≤ 7 := abs_le.2 ⟨by omega, by omega⟩
  omega

/-- The sum of the four axis contributions is at least any one of them. -/
theorem axisScore_le_sum (b : Board) (d : Int) (hd : 0 ≤ d) (row col : Int)
    (dir : Int × Int) (hdir : dir ∈ directions) :
    axisScore b d row col dir
      ≤ axisScore b d row col (0, 1) + axisScore b d row col (1, 0)
        + axisScore b d row col (1, 1) + axisScore b d row col (1, -1) := by
  have h1 := axisScore_nonneg b d hd row col (0, 1)
  have h2 := axisScore_nonneg b d hd row col (1, 0)
  have h3 := axisScore_nonneg b d hd row col (1, 1)
  have h4 := axisScore_nonneg b d hd row col (1, -1)
  simp only [directions, List.mem_cons, List.mem_singleton, List.not_mem_nil, or_false] at hdir
  rcases hdir with rfl | rfl | rfl | rfl <;> linarith

/-- C7: for every difficulty `d ≥ 1`, a cell `A` of the grid where black has a line
scored 100 on some axis outscores a cell `B` whose eight line scores are all 0
except a single 10 for white, wherever the two cells lie (in particular for two
empty cells). -/
theorem defence_outscores_open_two (b : Board) (d : Int) (hd : 1 ≤ d)
    (rowA colA rowB colB : Int)
    (hA : isValidCell rowA colA = true)
    (dirA : Int × Int) (hdirA : dirA ∈ directions)
    (hthree : evaluateLine b rowA colA dirA.1 dirA.2 Player.black = 100)
    (dirB : Int × Int) (hdirB : dirB ∈ directions)
    (htwo : evaluateLine b rowB colB dirB.1 dirB.2 Player.white = 10)
    (hwhite : ∀ dir ∈ directions, dir ≠ dirB →
      evaluateLine b rowB colB dir.1 dir.2 Player.white = 0)
    (hblack : ∀ dir ∈ directions, evaluateLine b rowB colB dir.1 dir.2 Player.black = 0) :
    evaluatePosition b d rowA colA > evaluatePosition b d rowB colB := by
  have hq : (1 : ℚ) ≤ d := by exact_mod_cast hd
  have hd0 : 0 ≤ d := by omega
  -- the score of A
  have hdist : ((|rowA - 7| + |colA - 7| : Int) : ℚ) ≤ 14 := by
    exact_mod_cast centre_distance_le rowA colA hA
  have hsum := axisScore_le_sum b d hd0 rowA colA dirA hdirA
  have haxis : (100 : ℚ) * (1 + (d : ℚ) / 5) ≤ axisScore b d rowA colA dirA := by
    rw [axisScore_eq, hthree]
    have h1 : (0 : ℚ) ≤ (evaluateLine b rowA colA dirA.1 dirA.2 Player.white : ℚ) :=
      Nat.cast_nonneg _
    have h3 : (0 : ℚ) ≤ 1 + (d : ℚ) / 10 := by linarith
    have := mul_nonneg h1 h3
    push_cast
    linarith
  -- the score of B
  have hdistB : (0 : ℚ) ≤ ((|rowB - 7| + |colB - 7| : Int) : ℚ) := by
    exact_mod_cast add_nonneg (abs_nonneg _) (abs_nonneg _)
  have hB4 : axisScore b d rowB colB (0, 1) + axisScore b d rowB colB (1, 0)
      + axisScore b d rowB colB (1, 1) + axisScore b d rowB colB (1, -1)
      = 10 * (1 + (d : ℚ) / 10) := by
    have b1 := hblack (0, 1) (by decide)
    have b2 := hblack (1, 0) (by decide)
    have b3 := hblack (1, 1) (by decide)
    have b4 := hblack (1, -1) (by decide)
    simp only [directions, List.mem_cons, List.mem_singleton, List.not_mem_nil, or_false]
      at hdirB
    rcases hdirB with rfl | rfl | rfl | rfl
    · have w2 := hwhite (1, 0) (by decide) (by decide)
      have w3 := hwhite (1, 1) (by decide) (by decide)
      have w4 := hwhite (1, -1) (by decide) (by decide)
      simp only [axisScore_eq, b1, b2, b3, b4, htwo, w2, w3, w4]
      push_cast
      ring
    · have w1 := hwhite (0, 1) (by decide) (by decide)
      have w3 := hwhite (1, 1) (by decide) (by decide)
      have w4 := hwhite (1, -1) (by decide) (by decide)
      simp only [axisScore_eq, b1, b2, b3, b4, htwo, w1, w3, w4]
      push_cast
      ring
    · have w1 := hwhite (0, 1) (by decide) (by decide)
      have w2 := hwhite (1, 0) (by decide) (by decide)
      have w4 := hwhite (1, -1) (by decide) (by decide)
      simp only [axisScore_eq, b1, b2, b3, b4, htwo, w1, w2, w4]
      push_cast
      ring
    · have w1 := hwhite (0, 1) (by decide) (by decide)
      have w2 := hwhite (1, 0) (by decide) (by decide)
      have w3 := hwhite (1, 1) (by decide) (by decide)
      simp only [axisScore_eq, b1, b2, b3, b4, htwo, w1, w2, w3]
      push_cast
      ring
  rw [gt_iff_lt, evaluatePosition_eq b d rowA colA, evaluatePosition_eq b d rowB colB]
  linarith

/-- Witness for C7: on `threeAndTwo` at difficulty 1, `A = (7, 9)` extends the two
black stones and `B = (2, 3)` touches only the white stone. -/
theorem defence_outscores_open_two_witness :
    evaluateLine threeAndTwo 7 9 0 1 Player.black = 100
    ∧ evaluateLine threeAndTwo 2 3 0 1 Player.white = 10
    ∧ evaluatePosition threeAndTwo 1 7 9 > evaluatePosition threeAndTwo 1 2 3 :=
  ⟨by decide, by decide,
    defence_outscores_open_two threeAndTwo 1 (by decide) 7 9 2 3 (by decide)
      (0, 1) (by decide) (by decide) (0, 1) (by decide) (by decide) (by decide) (by decide)⟩

/-! ## The scanner and the win detector agree -/

theorem scoringLogic_eq_10000_iff (count blocked : Nat) :
    scoringLogic count blocked = 10000 ↔ 4 ≤ count := by
  unfold scoringLogic
  constructor
  · intro h
    by_contra hc
    simp only [ge_iff_le, hc, if_false] at h
    split_ifs at h <;> omega
  · intro h
    simp [h]

theorem scoringLogic_le (count blocked : Nat) (h : scoringLogic count blocked ≠ 10000) :
    scoringLogic count blocked ≤ 1000 := by
  unfold scoringLogic at *
  split_ifs at * <;> simp_all

theorem scoringLogic_blocked_le (count blocked : Nat) (hb : 1 ≤ blocked)
    (h : scoringLogic count blocked ≠ 10000) : scoringLogic count blocked ≤ 100 := by
  unfold scoringLogic at *
  split_ifs at * <;> omega

theorem leading_congr (f g : Int → Bool) (h : ∀ i ∈ scanSteps, f i = g i) :
    leading f = leading g := by
  unfold leading
  have h1 := h 1 (by simp [scanSteps])
  have h2 := h 2 (by simp [scanSteps])
  have h3 := h 3 (by simp [scanSteps])
  have h4 := h 4 (by simp [scanSteps])
  simp only [scanSteps, List.takeWhile_cons, List.takeWhile_nil, h1, h2, h3, h4]

theorem leading_eq_zero (f : Int → Bool) (h : f 1 = false) : leading f = 0 := by
  simp [leading, scanSteps, List.takeWhile_cons, h]

theorem readCell_writeCell_ne (b : Board) (row col : Int) (v : Cell) (r c : Int)
    (h : ¬ (r = row ∧ c = col)) : readCell (writeCell b row col v) r c = readCell b r c := by
  unfold readCell
  split
  · rename_i hin
    unfold writeCell
    rw [if_neg]
    intro ⟨h1, h2⟩
    apply h
    simp only [Int.toNat_of_nonneg hin.1.1, Int.toNat_of_nonneg hin.2.1] at h1 h2
    exact ⟨h1, h2⟩
  · rfl

/-- A scanned cell is never the origin: the four directions are non-zero. -/
theorem scan_pos_ne (row col : Int) (d : Int × Int) (hd : d ∈ directions) (i : Int)
    (hi : i ∈ scanSteps) :
    ¬ (row + d.1 * i = row ∧ col + d.2 * i = col)
    ∧ ¬ (row - d.1 * i = row ∧ col - d.2 * i = col) := by
  simp only [directions, List.mem_cons, List.mem_singleton, List.not_mem_nil, or_false] at hd
  simp only [scanSteps, List.mem_cons, List.mem_singleton, List.not_mem_nil, or_false] at hi
  rcases hd with rfl | rfl | rfl | rfl <;> rcases hi with rfl | rfl | rfl | rfl <;>
    constructor <;> simp

theorem winCount_writeCell (b : Board) (row col : Int) (v : Cell) (p : Player)
    (d : Int × Int) (hd : d ∈ directions) :
    winCount (writeCell b row col v) row col p d = winCount b row col p d := by
  rw [winCount_eq, winCount_eq]
  congr 1
  · congr 1
    apply leading_congr
    intro i hi
    simp only [winHit]
    rw [readCell_writeCell_ne _ _ _ _ _ _ (scan_pos_ne row col d hd i hi).1]
  · apply leading_congr
    intro i hi
    simp only [winHit]
    rw [readCell_writeCell_ne _ _ _ _ _ _ (scan_pos_ne row col d hd i hi).2]

/-- `checkWin` does not depend on the content of the probed cell. -/
theorem checkWin_writeCell (b : Board) (row col : Int) (v : Cell) (p : Player) :
    checkWin (writeCell b row col v) row col p = checkWin b row col p := by
  have h : ∀ q : Board, checkWin q row col p = true
      ↔ ∃ d ∈ directions, winCount q row col p d ≥ 5 := by
    intro q
    simp [checkWin, List.any_eq_true]
  rw [Bool.eq_iff_iff, h, h]
  constructor
  · rintro ⟨d, hd, hw⟩
    exact ⟨d, hd, by rw [← winCount_writeCell b row col v p d hd]; exact hw⟩
  · rintro ⟨d, hd, hw⟩
    exact ⟨d, hd, by rw [winCount_writeCell b row col v p d hd]; exact hw⟩

theorem evaluateLine_eq_10000_iff (b : Board) (row col : Int) (d : Int × Int) (p : Player) :
    evaluateLine b row col d.1 d.2 p = 10000 ↔ winCount b row col p d ≥ 5 := by
  rw [evaluateLine_eq, scoringLogic_eq_10000_iff, winCount_eq]
  unfold legCount
  omega

/-- `checkWin` is true exactly when some axis has line score 10000. -/
theorem checkWin_iff_evaluateLine (b : Board) (row col : Int) (p : Player) :
    checkWin b row col p = true
      ↔ ∃ d ∈ directions, evaluateLine b row col d.1 d.2 p = 10000 := by
  unfold checkWin
  rw [List.any_eq_true]
  constructor
  · rintro ⟨d, hd, h⟩
    exact ⟨d, hd, (evaluateLine_eq_10000_iff b row col d p).2 (by simpa using h)⟩
  · rintro ⟨d, hd, h⟩
    exact ⟨d, hd, by simpa using (evaluateLine_eq_10000_iff b row col d p).1 h⟩

/-! ## The heuristic takes a win when the opponent has no winning cell -/

theorem other_other (p : Player) : other (other p) = p := by
  cases p <;> rfl

/-- A leg that starts with a stone of `p` counts nothing for the other colour and
is blocked for it. -/
theorem opponent_leg_blocked (b : Board) (p : Player) (pos : Int → Int × Int)
    (h : 1 ≤ legCount b p pos) :
    legCount b (other p) pos = 0 ∧ legBlocked b (other p) pos = true := by
  have hit := leading_hit (winHit b p pos) 1 (by norm_num) (by exact_mod_cast h)
  rw [winHit_iff] at hit
  obtain ⟨hv, hp⟩ := hit
  have hmiss : winHit b (other p) pos 1 = false := by
    simp only [winHit, hv, hp, Bool.true_and, decide_eq_false_iff_not, Option.some.injEq]
    exact fun h => other_ne p h.symm
  have h0 : legCount b (other p) pos = 0 := leading_eq_zero _ hmiss
  refine ⟨h0, ?_⟩
  unfold legBlocked
  rw [h0]
  simp [blockedAt, hp, other_other]

theorem scoringLogic_values (count blocked : Nat) :
    scoringLogic count blocked = 0 ∨ scoringLogic count blocked = 10
    ∨ scoringLogic count blocked = 100 ∨ scoringLogic count blocked = 1000
    ∨ scoringLogic count blocked = 10000 := by
  unfold scoringLogic
  split_ifs <;> simp

theorem scoringLogic_eq_1000 (count blocked : Nat) (h : scoringLogic count blocked = 1000) :
    count = 3 := by
  unfold scoringLogic at h
  split_ifs at h <;> omega

theorem evaluateLine_values (b : Board) (row col dx dy : Int) (p : Player) :
    evaluateLine b row col dx dy p = 0 ∨ evaluateLine b row col dx dy p = 10
    ∨ evaluateLine b row col dx dy p = 100 ∨ evaluateLine b row col dx dy p = 1000
    ∨ evaluateLine b row col dx dy p = 10000 := by
  rw [evaluateLine_eq]
  exact scoringLogic_values _ _

/-- On one axis through one cell the two colours cannot both score 1000. -/
theorem evaluateLine_opponent_le (b : Board) (row col dx dy : Int) (p : Player)
    (h : evaluateLine b row col dx dy p = 1000)
    (hq : evaluateLine b row col dx dy (other p) ≠ 10000) :
    evaluateLine b row col dx dy (other p) ≤ 100 := by
  rw [evaluateLine_eq] at h hq ⊢
  have hc := scoringLogic_eq_1000 _ _ h
  apply scoringLogic_blocked_le _ _ _ hq
  unfold blockedLegs
  by_cases hf : 1 ≤ legCount b p (fun i => (row + dx * i, col + dy * i))
  · rw [(opponent_leg_blocked b p _ hf).2]
    simp
  · have hb : 1 ≤ legCount b p (fun i => (row - dx * i, col - dy * i)) := by omega
    rw [(opponent_leg_blocked b p _ hb).2]
    simp

theorem axisScore_le (b : Board) (d : Int) (hd : 0 ≤ d) (row col : Int) (dir : Int × Int)
    (hw : evaluateLine b row col dir.1 dir.2 Player.white ≠ 10000)
    (hb : evaluateLine b row col dir.1 dir.2 Player.black ≠ 10000) :
    axisScore b d row col dir ≤ 1100 + 210 * (d : ℚ) := by
  have hq : (0 : ℚ) ≤ d := by exact_mod_cast hd
  rw [axisScore_eq]
  have hwb := evaluateLine_opponent_le b row col dir.1 dir.2 Player.white
  have hbw := evaluateLine_opponent_le b row col dir.1 dir.2 Player.black
  simp only [other] at hwb hbw
  rcases evaluateLine_values b row col dir.1 dir.2 Player.white with w | w | w | w | w
  all_goals rcases evaluateLine_values b row col dir.1 dir.2 Player.black with k | k | k | k | k
  all_goals first
    | exact absurd w hw
    | exact absurd k hb
    | exact absurd (hwb w hb) (by omega)
    | (rw [w, k]; push_cast; linarith)

/-- An open four of `p` gives an empty cell with a line score of 10000 for `p`. -/
theorem openFour_completing (b : Board) (p : Player) (h : openFour b p) :
    ∃ e : Move, isEmptyCell b e
      ∧ ∃ d ∈ directions, evaluateLine b e.row e.col d.1 d.2 p = 10000 := by
  obtain ⟨d, hd, r, c, hrun, -, -, hend⟩ := h
  rcases hend with he | he
  · -- the empty end precedes the run: the forward leg counts the four stones
    refine ⟨_, he, d, hd, ?_⟩
    rw [evaluateLine_eq, scoringLogic_eq_10000_iff]
    have : 4 ≤ legCount b p
        (fun i => (r + d.1 * (-1) + d.1 * i, c + d.2 * (-1) + d.2 * i)) := by
      apply le_leading _ 4 (le_refl 4)
      intro k hk1 hk2
      rw [winHit_iff]
      have := hrun (k - 1) (by omega) (by push_cast at hk2; omega)
      have e1 : r + d.1 * (-1) + d.1 * k = r + d.1 * (k - 1) := by ring
      have e2 : c + d.2 * (-1) + d.2 * k = c + d.2 * (k - 1) := by ring
      simp only [e1, e2]
      exact this
    exact le_trans this (Nat.le_add_right _ _)
  · -- the empty end follows the run: the backward leg counts the four stones
    refine ⟨_, he, d, hd, ?_⟩
    rw [evaluateLine_eq, scoringLogic_eq_10000_iff]
    have : 4 ≤ legCount b p
        (fun i => (r + d.1 * 4 - d.1 * i, c + d.2 * 4 - d.2 * i)) := by
      apply le_leading _ 4 (le_refl 4)
      intro k hk1 hk2
      rw [winHit_iff]
      have := hrun (4 - k) (by push_cast at hk2; omega) (by omega)
      have e1 : r + d.1 * 4 - d.1 * k = r + d.1 * (4 - k) := by ring
      have e2 : c + d.2 * 4 - d.2 * k = c + d.2 * (4 - k) := by ring
      simp only [e1, e2]
      exact this
    exact le_trans this (Nat.le_add_left _ _)

theorem score_ge_of_winning_axis (b : Board) (d : Int) (hd : 0 ≤ d) (row col : Int)
    (hvalid : isValidCell row col = true) (dir : Int × Int) (hdir : dir ∈ directions)
    (h : evaluateLine b row col dir.1 dir.2 Player.white = 10000) :
    10000 * (1 + (d : ℚ) / 10) - 14 ≤ evaluatePosition b d row col := by
  have hq : (0 : ℚ) ≤ d := by exact_mod_cast hd
  have hdist : ((|row - 7| + |col - 7| : Int) : ℚ) ≤ 14 := by
    exact_mod_cast centre_distance_le row col hvalid
  have hsum := axisScore_le_sum b d hd row col dir hdir
  have haxis : (10000 : ℚ) * (1 + (d : ℚ) / 10) ≤ axisScore b d row col dir := by
    rw [axisScore_eq, h]
    have h1 : (0 : ℚ) ≤ (evaluateLine b row col dir.1 dir.2 Player.black : ℚ) :=
      Nat.cast_nonneg _
    have h3 : (0 : ℚ) ≤ 1 + (d : ℚ) / 5 := by linarith
    have := mul_nonneg h1 h3
    push_cast
    linarith
  rw [evaluatePosition_eq]
  linarith

theorem score_le_of_no_winning_axis (b : Board) (d : Int) (hd : 0 ≤ d) (row col : Int)
    (hw : ∀ dir ∈ directions, evaluateLine b row col dir.1 dir.2 Player.white ≠ 10000)
    (hb : ∀ dir ∈ directions, evaluateLine b row col dir.1 dir.2 Player.black ≠ 10000) :
    evaluatePosition b d row col ≤ 4400 + 840 * (d : ℚ) := by
  have hdist : (0 : ℚ) ≤ ((|row - 7| + |col - 7| : Int) : ℚ) := by
    exact_mod_cast add_nonneg (abs_nonneg _) (abs_nonneg _)
  have h1 := axisScore_le b d hd row col (0, 1) (hw _ (by decide)) (hb _ (by decide))
  have h2 := axisScore_le b d hd row col (1, 0) (hw _ (by decide)) (hb _ (by decide))
  have h3 := axisScore_le b d hd row col (1, 1) (hw _ (by decide)) (hb _ (by decide))
  have h4 := axisScore_le b d hd row col (1, -1) (hw _ (by decide)) (hb _ (by decide))
  rw [evaluatePosition_eq]
  linarith

/-- C5, as amended: for every difficulty above 3, if white has four contiguous
stones with an empty cell of the grid at an end of the run and black has no
completing cell of its own, every move `getHeuristicMove` can return is a
completing cell for white. -/
theorem getHeuristicMove_completes_five (b : Board) (d : Int) (hd : 3 < d)
    (hfour : openFour b Player.white)
    (hsafe : ∀ m : Move, ¬ completesFive b Player.black m)
    (u : Draw) (m : Move) (hm : getHeuristicMove b d u = some m) :
    completesFive b Player.white m := by
  have hd0 : 0 ≤ d := by omega
  have hq : (3 : ℚ) < d := by exact_mod_cast hd
  obtain ⟨hempty, hmax⟩ := (mem_bestMoves b d m).1 (randomElement_mem _ u m hm)
  refine ⟨hempty, ?_⟩
  rw [checkWin_writeCell, checkWin_iff_evaluateLine]
  by_contra hno
  obtain ⟨e, he, dir, hdir, hline⟩ := openFour_completing b Player.white hfour
  have hge := score_ge_of_winning_axis b d hd0 e.row e.col he.1 dir hdir hline
  have hle := score_le_of_no_winning_axis b d hd0 m.row m.col
    (fun dir hdir h => hno ⟨dir, hdir, h⟩)
    (fun dir hdir h => hsafe m ⟨hempty, by
      rw [checkWin_writeCell, checkWin_iff_evaluateLine]
      exact ⟨dir, hdir, h⟩⟩)
  have := hmax e he
  linarith

theorem openFour_row7 (b : Board)
    (h5 : holds b Player.white 7 5) (h6 : holds b Player.white 7 6)
    (h7 : holds b Player.white 7 7) (h8 : holds b Player.white 7 8)
    (h4 : isEmptyCell b { row := 7, col := 4 }) (h9 : isEmptyCell b { row := 7, col := 9 }) :
    openFour b Player.white := by
  refine ⟨(0, 1), by decide, 7, 5, ?_, ?_, ?_, Or.inr (by simpa using h9)⟩
  · intro k hk0 hk3
    have : k = 0 ∨ k = 1 ∨ k = 2 ∨ k = 3 := by omega
    rcases this with rfl | rfl | rfl | rfl <;> simpa
  · intro h
    have e := h4.2
    have := h.2
    norm_num at this
    rw [e] at this
    exact absurd this (by simp)
  · intro h
    have e := h9.2
    have := h.2
    norm_num at this
    rw [e] at this
    exact absurd this (by simp)

/-- Witness for C5 as amended: on `whiteFour` at difficulty 4 the move returned for
the draw 0 is `(7, 9)`, which completes the white five. -/
theorem getHeuristicMove_completes_five_witness :
    completesFive whiteFour Player.white { row := 7, col := 9 } :=
  getHeuristicMove_completes_five whiteFour 4 (by decide)
    (openFour_row7 whiteFour ⟨by decide, by decide⟩ ⟨by decide, by decide⟩
      ⟨by decide, by decide⟩ ⟨by decide, by decide⟩ ⟨by decide, by decide⟩
      ⟨by decide, by decide⟩)
    (fun m hm => by
      obtain ⟨rc, -, rfl⟩ := (isEmptyCell_iff whiteFour m).1 hm.1
      have key : ∀ rc ∈ allCells,
          checkWin whiteFour (moveOf rc).row (moveOf rc).col Player.black = false := by
        decide!
      have := hm.2
      rw [checkWin_writeCell, key rc (mem_allCells rc)] at this
      exact absurd this (by decide))
    zeroDraw { row := 7, col := 9 } (by decide!)

/-- C5, counterexample: on `twoFours` at difficulty 4 white has an open four, yet
the move returned for the draw 0 is `(3, 9)`, which blocks the black four and
does not complete a white five. -/
theorem getHeuristicMove_blocks_instead :
    (3 : Int) < 4 ∧ openFour twoFours Player.white
    ∧ getHeuristicMove twoFours 4 zeroDraw = some { row := 3, col := 9 }
    ∧ ¬ completesFive twoFours Player.white { row := 3, col := 9 } :=
  ⟨by decide,
    openFour_row7 twoFours ⟨by decide, by decide⟩ ⟨by decide, by decide⟩
      ⟨by decide, by decide⟩ ⟨by decide, by decide⟩ ⟨by decide, by decide⟩
      ⟨by decide, by decide⟩,
    by decide!,
    fun h => absurd h.2 (by decide)⟩

/-! ## The controller: rejected requests, terminal states, reset and configuration -/

theorem readCell_isSome_of_ne_none (b : Board) (row col : Int)
    (h : readCell b row col ≠ none) : (readCell b row col).isSome = true := by
  cases hc : readCell b row col with
  | none => exact absurd hc h
  | some p => rfl

/-- C11, as amended: a click on an occupied cell (which is then a cell of the
grid) leaves the whole state as it was, in particular `boardState`,
`currentPlayer`, `gameActive` and `isAiThinking`, and the caller is told nothing:
the handler returns `undefined`. -/
theorem handleCellClick_occupied (s : GameState) (row col : Int)
    (hocc : readCell s.boardState row col ≠ none) :
    handleCellClick s row col = s
    ∧ (handleCellClick s row col).boardState = s.boardState
    ∧ (handleCellClick s row col).currentPlayer = s.currentPlayer
    ∧ (handleCellClick s row col).gameActive = s.gameActive
    ∧ (handleCellClick s row col).isAiThinking = s.isAiThinking
    ∧ handleCellClickReturn s row col = none := by
  have h : handleCellClick s row col = s := by
    unfold handleCellClick
    rw [readCell_isSome_of_ne_none _ _ _ hocc]
    split <;> rfl
  refine ⟨h, ?_, ?_, ?_, ?_, ?_⟩
  · rw [h]
  · rw [h]
  · rw [h]
  · rw [h]
  · unfold handleCellClickReturn
    split_ifs <;> rfl

/-- Witness for C11 as amended: a second click on the centre after black has
played it. -/
theorem handleCellClick_occupied_witness :
    isValidCell 7 7 = true
    ∧ readCell afterCentre.boardState 7 7 = some Player.black
    ∧ handleCellClick afterCentre 7 7 = afterCentre :=
  ⟨by decide, by decide, (handleCellClick_occupied afterCentre 7 7 (by decide)).1⟩

/-- C11, counterexample: black has played the centre and the game goes on; a
further click on the centre changes nothing and does not return `CellOccupied`. -/
theorem handleCellClick_occupied_silent :
    isValidCell 7 7 = true
    ∧ readCell afterCentre.boardState 7 7 = some Player.black
    ∧ afterCentre.gameActive = true ∧ afterCentre.isAiThinking = false
    ∧ handleCellClickReturn afterCentre 7 7 ≠ some MoveError.CellOccupied := by
  decide

/-- C12: once `gameActive` is false, a click at any cell and a machine move with
any draw leave the state as it is (in particular `boardState`, `currentPlayer`
and `gameActive`); a timer firing and a difficulty change keep `gameActive`
false; `restartGame`, also when called by `toggleAiMode`, makes it true again. -/
theorem finished_game_is_terminal (s : GameState) (hover : s.gameActive = false)
    (row col : Int) (u : Draw) (level : Int) :
    (handleCellClick s row col = s
      ∧ (handleCellClick s row col).boardState = s.boardState
      ∧ (handleCellClick s row col).currentPlayer = s.currentPlayer
      ∧ (handleCellClick s row col).gameActive = false)
    ∧ (makeAiMove s u = s
      ∧ (makeAiMove s u).boardState = s.boardState
      ∧ (makeAiMove s u).currentPlayer = s.currentPlayer
      ∧ (makeAiMove s u).gameActive = false)
    ∧ ((aiTimerFires s u).boardState = s.boardState
      ∧ (aiTimerFires s u).currentPlayer = s.currentPlayer
      ∧ (aiTimerFires s u).gameActive = false)
    ∧ (difficultyChange s level).gameActive = false
    ∧ (restartGame s).gameActive = true
    ∧ (toggleAiMode s).gameActive = true := by
  have h1 : handleCellClick s row col = s := by
    unfold handleCellClick
    simp [hover]
  have h2 : ∀ t : GameState, t.gameActive = false → makeAiMove t u = t := by
    intro t ht
    unfold makeAiMove
    simp [ht]
  refine ⟨⟨h1, ?_, ?_, ?_⟩, ⟨h2 s hover, ?_, ?_, ?_⟩, ?_, hover, rfl, ?_⟩
  · rw [h1]
  · rw [h1]
  · rw [h1]; exact hover
  · rw [h2 s hover]
  · rw [h2 s hover]
  · rw [h2 s hover]; exact hover
  · unfold aiTimerFires
    split
    · exact ⟨rfl, rfl, hover⟩
    · rw [h2 { s with pendingAiMoves := s.pendingAiMoves - 1 } hover]
      exact ⟨rfl, rfl, hover⟩
  · unfold toggleAiMode
    split <;> rfl

/-- Witness for C12: a click on the centre of a finished game. -/
theorem finished_game_is_terminal_witness :
    finishedGame.gameActive = false ∧ handleCellClick finishedGame 7 7 = finishedGame :=
  ⟨rfl, (finished_game_is_terminal finishedGame rfl 7 7 zeroDraw 5).1.1⟩

/-- C13: `restartGame` empties all 225 cells, gives the move to black, sets
`gameActive` and clears `isAiThinking`; `gameMode` and `aiDifficulty` stay. -/
theorem restartGame_resets (s : GameState) :
    (∀ r c : Fin BOARD_SIZE, (restartGame s).boardState r c = none)
    ∧ (restartGame s).currentPlayer = Player.black
    ∧ (restartGame s).gameActive = true
    ∧ (restartGame s).isAiThinking = false
    ∧ (restartGame s).gameMode = s.gameMode
    ∧ (restartGame s).aiDifficulty = s.aiDifficulty :=
  ⟨fun _ _ => rfl, rfl, rfl, rfl, rfl, rfl⟩

/-- C14, as amended: the difficulty handler sets `aiDifficulty` to the new level
and changes nothing else; the game in progress goes on. -/
theorem difficultyChange_keeps_game (s : GameState) (level : Int) :
    (difficultyChange s level).aiDifficulty = level
    ∧ (difficultyChange s level).boardState = s.boardState
    ∧ (difficultyChange s level).currentPlayer = s.currentPlayer
    ∧ (difficultyChange s level).gameActive = s.gameActive
    ∧ (difficultyChange s level).isAiThinking = s.isAiThinking
    ∧ (difficultyChange s level).gameMode = s.gameMode :=
  ⟨rfl, rfl, rfl, rfl, rfl, rfl⟩

/-- C14, counterexample: after black has played the centre, a change of the
difficulty to 7 leaves the stone on the board and white to move, whereas
`restartGame` empties the board. -/
theorem difficultyChange_does_not_reset :
    (difficultyChange afterCentre 7).aiDifficulty = 7
    ∧ (difficultyChange afterCentre 7).boardState ⟨7, by decide⟩ ⟨7, by decide⟩
        = some Player.black
    ∧ (difficultyChange afterCentre 7).currentPlayer = Player.white
    ∧ (restartGame afterCentre).boardState ⟨7, by decide⟩ ⟨7, by decide⟩ = none
    ∧ (difficultyChange afterCentre 7).boardState
        ≠ (restartGame (difficultyChange afterCentre 7)).boardState := by
  refine ⟨rfl, by decide, by decide, rfl, ?_⟩
  intro h
  have := congrFun (congrFun h ⟨7, by decide⟩) ⟨7, by decide⟩
  revert this
  decide

/-- C15: `toggleAiMode` flips `gameMode`, keeps `aiDifficulty`, and leaves the
freshly reset game; applied twice it restores the original `gameMode`. -/
theorem toggleAiMode_flips_and_resets (s : GameState) :
    ((s.gameMode = GameMode.pvp → (toggleAiMode s).gameMode = GameMode.pve)
      ∧ (s.gameMode = GameMode.pve → (toggleAiMode s).gameMode = GameMode.pvp))
    ∧ (toggleAiMode s).aiDifficulty = s.aiDifficulty
    ∧ (∀ r c : Fin BOARD_SIZE, (toggleAiMode s).boardState r c = none)
    ∧ (toggleAiMode s).currentPlayer = Player.black
    ∧ (toggleAiMode s).gameActive = true
    ∧ (toggleAiMode s).isAiThinking = false
    ∧ (toggleAiMode (toggleAiMode s)).gameMode = s.gameMode := by
  cases hm : s.gameMode <;> simp [toggleAiMode, restartGame, hm, emptyBoard]

/-- C16: with black on `(7, 7)` to `(7, 10)` only, `checkWin(7, 10, 'black')` is
false (the count is 4); once black is also on `(7, 11)`, `checkWin(7, 11, 'black')`
is true (the count is 5). -/
theorem four_then_five :
    checkWin fourInRow 7 10 Player.black = false
    ∧ winCount fourInRow 7 10 Player.black (0, 1) = 4
    ∧ checkWin (writeCell fourInRow 7 11 (some Player.black)) 7 11 Player.black = true
    ∧ winCount (writeCell fourInRow 7 11 (some Player.black)) 7 11 Player.black (0, 1) = 5 := by
  decide

/-! ## The scanner against the win detector, the empty board, the probed cell -/

/-- C18: `checkWin` is true exactly when `evaluateLine` is 10000 on one of the four
axes; so a line score of 10000 at a cell means exactly that `checkWin` holds there
once a stone of `p` is placed on it. -/
theorem scanner_agrees_with_win_detector (b : Board) (row col : Int) (p : Player) :
    (checkWin b row col p = true
      ↔ ∃ d ∈ directions, evaluateLine b row col d.1 d.2 p = 10000)
    ∧ ((∃ d ∈ directions, evaluateLine b row col d.1 d.2 p = 10000)
      ↔ checkWin (writeCell b row col (some p)) row col p = true) := by
  refine ⟨checkWin_iff_evaluateLine b row col p, ?_⟩
  rw [checkWin_writeCell]
  exact (checkWin_iff_evaluateLine b row col p).symm

theorem readCell_emptyBoard (r c : Int) : readCell emptyBoard r c = none := by
  unfold readCell
  split <;> rfl

theorem legCount_emptyBoard (p : Player) (pos : Int → Int × Int) :
    legCount emptyBoard p pos = 0 := by
  apply leading_eq_zero
  simp [winHit, readCell_emptyBoard]

theorem evaluateLine_emptyBoard (row col dx dy : Int) (p : Player) :
    evaluateLine emptyBoard row col dx dy p = 0 := by
  rw [evaluateLine_eq, legCount_emptyBoard, legCount_emptyBoard]
  simp [scoringLogic]

theorem evaluatePosition_emptyBoard (d : Int) (row col : Int) :
    evaluatePosition emptyBoard d row col = -((|row - 7| + |col - 7| : Int) : ℚ) := by
  rw [evaluatePosition_eq]
  simp [axisScore, evaluateLine_emptyBoard]

theorem getHeuristicMove_emptyBoard (d : Int) (u : Draw) :
    getHeuristicMove emptyBoard d u = some { row := 7, col := 7 } := by
  cases h : getHeuristicMove emptyBoard d u with
  | none =>
    have := (getHeuristicMove_eq_none_iff emptyBoard d u).1 h
    exact absurd rfl (this 0 0)
  | some m =>
    obtain ⟨-, hmax⟩ := (mem_bestMoves emptyBoard d m).1 (randomElement_mem _ u m h)
    have hc : isEmptyCell emptyBoard { row := 7, col := 7 } := ⟨by decide, rfl⟩
    have := hmax _ hc
    rw [evaluatePosition_emptyBoard, evaluatePosition_emptyBoard] at this
    have h0 : |m.row - 7| + |m.col - 7| ≤ 0 := by
      have h' : -((|(7 : Int) - 7| + |(7 : Int) - 7| : Int) : ℚ) = 0 := by norm_num
      rw [h'] at this
      have h2 : ((|m.row - 7| + |m.col - 7| : Int) : ℚ) ≤ 0 := by linarith
      exact_mod_cast h2
    have h1 : |m.row - 7| = 0 := by
      have := abs_nonneg (m.row - 7)
      have := abs_nonneg (m.col - 7)
      omega
    have h2 : |m.col - 7| = 0 := by
      have := abs_nonneg (m.row - 7)
      have := abs_nonneg (m.col - 7)
      omega
    rw [abs_eq_zero] at h1 h2
    cases m with
    | mk mr mc =>
      simp only at h1 h2
      have e1 : mr = 7 := by omega
      have e2 : mc = 7 := by omega
      rw [e1, e2]

/-- C19: on the empty board the score of every cell is minus its Manhattan
distance to the centre `(7, 7)`, for every difficulty, and `getHeuristicMove`
returns the centre for every draw. -/
theorem centre_bias_on_empty_board (d : Int) (row col : Int) (u : Draw) :
    evaluatePosition emptyBoard d row col = -((|row - 7| + |col - 7| : Int) : ℚ)
    ∧ getHeuristicMove emptyBoard d u = some { row := 7, col := 7 } :=
  ⟨evaluatePosition_emptyBoard d row col, getHeuristicMove_emptyBoard d u⟩

theorem readCell_congr (b₁ b₂ : Board) (row col : Int)
    (hsame : ∀ r c : Fin BOARD_SIZE, ¬ ((r.val : Int) = row ∧ (c.val : Int) = col) →
      b₁ r c = b₂ r c)
    (r c : Int) (h : ¬ (r = row ∧ c = col)) : readCell b₁ r c = readCell b₂ r c := by
  unfold readCell
  split
  · rename_i hin
    apply hsame
    intro ⟨h1, h2⟩
    apply h
    simp only [Int.toNat_of_nonneg hin.1.1, Int.toNat_of_nonneg hin.2.1] at h1 h2
    exact ⟨h1, h2⟩
  · rfl

theorem winCount_congr (b₁ b₂ : Board) (row col : Int) (p : Player)
    (hsame : ∀ r c : Fin BOARD_SIZE, ¬ ((r.val : Int) = row ∧ (c.val : Int) = col) →
      b₁ r c = b₂ r c)
    (d : Int × Int) (hd : d ∈ directions) :
    winCount b₁ row col p d = winCount b₂ row col p d := by
  rw [winCount_eq, winCount_eq]
  congr 1
  · congr 1
    apply leading_congr
    intro i hi
    simp only [winHit]
    rw [readCell_congr b₁ b₂ row col hsame _ _ (scan_pos_ne row col d hd i hi).1]
  · apply leading_congr
    intro i hi
    simp only [winHit]
    rw [readCell_congr b₁ b₂ row col hsame _ _ (scan_pos_ne row col d hd i hi).2]

theorem winCount_ge_five_of_adjoining (b : Board) (row col : Int) (p : Player)
    (d : Int × Int) (h : adjoinsFour b p row col d) : winCount b row col p d ≥ 5 := by
  obtain ⟨lo, hi, hlo, hhi, hlen, hall⟩ := h
  rw [winCount_eq]
  have h1 : (min hi 4).toNat
      ≤ leading (winHit b p (fun i => (row + d.1 * i, col + d.2 * i))) := by
    apply le_leading _ _ (by omega)
    intro k hk1 hk2
    rw [winHit_iff]
    exact hall k (by omega) (by omega) (by omega)
  have h2 : (min (-lo) 4).toNat
      ≤ leading (winHit b p (fun i => (row - d.1 * i, col - d.2 * i))) := by
    apply le_leading _ _ (by omega)
    intro k hk1 hk2
    rw [winHit_iff]
    have := hall (-k) (by omega) (by omega) (by omega)
    simpa [sub_eq_add_neg] using this
  omega

/-- C20: `checkWin` gives the same answer on two boards that agree everywhere
except possibly at the probed cell; and it is true, whatever the probed cell
holds, as soon as stones of `p` adjoin the cell contiguously on one axis and span
five cells with it. -/
theorem checkWin_ignores_probed_cell (b₁ b₂ : Board) (row col : Int) (p : Player)
    (hsame : ∀ r c : Fin BOARD_SIZE, ¬ ((r.val : Int) = row ∧ (c.val : Int) = col) →
      b₁ r c = b₂ r c) :
    checkWin b₁ row col p = checkWin b₂ row col p
    ∧ ((∃ d ∈ directions, adjoinsFour b₁ p row col d) →
        checkWin b₁ row col p = true ∧ checkWin b₂ row col p = true) := by
  have hiff : ∀ q : Board, checkWin q row col p = true
      ↔ ∃ d ∈ directions, winCount q row col p d ≥ 5 := by
    intro q
    simp [checkWin, List.any_eq_true]
  have heq : checkWin b₁ row col p = checkWin b₂ row col p := by
    rw [Bool.eq_iff_iff, hiff, hiff]
    constructor
    · rintro ⟨d, hd, hw⟩
      exact ⟨d, hd, by rw [← winCount_congr b₁ b₂ row col p hsame d hd]; exact hw⟩
    · rintro ⟨d, hd, hw⟩
      exact ⟨d, hd, by rw [winCount_congr b₁ b₂ row col p hsame d hd]; exact hw⟩
  refine ⟨heq, ?_⟩
  rintro ⟨d, hd, hadj⟩
  have h1 : checkWin b₁ row col p = true :=
    (hiff b₁).2 ⟨d, hd, winCount_ge_five_of_adjoining b₁ row col p d hadj⟩
  exact ⟨h1, heq ▸ h1⟩

/-- Witness for C20: four black stones next to `(7, 11)`, which is empty on one
board and holds a white stone on the other; `checkWin` agrees, and is true. -/
theorem checkWin_ignores_probed_cell_witness :
    readCell fourInRow 7 11 = none
    ∧ readCell (writeCell fourInRow 7 11 (some Player.white)) 7 11 = some Player.white
    ∧ checkWin fourInRow 7 11 Player.black
        = checkWin (writeCell fourInRow 7 11 (some Player.white)) 7 11 Player.black
    ∧ checkWin fourInRow 7 11 Player.black = true :=
  ⟨by decide, by decide,
    (checkWin_ignores_probed_cell fourInRow
      (writeCell fourInRow 7 11 (some Player.white)) 7 11 Player.black
      (fun r c hne => by simp only [writeCell, if_neg hne])).1,
    by decide⟩

/-! ## The machine's timer across a restart -/

/-- A machine move on the empty board at a difficulty above 3 places the stone of
`currentPlayer` on the centre and passes the turn. -/
theorem makeAiMove_on_emptyBoard (s : GameState) (u : Draw) (hactive : s.gameActive = true)
    (hboard : s.boardState = emptyBoard) (hd : 3 < s.aiDifficulty) :
    makeAiMove s u = switchTurn { placePiece s 7 7 with isAiThinking := false } := by
  have hmove : getBestMove s u = some { row := 7, col := 7 } := by
    unfold getBestMove
    rw [if_neg (by omega), hboard]
    exact getHeuristicMove_emptyBoard _ u
  have hwin : checkWin (placePiece s 7 7).boardState 7 7 (placePiece s 7 7).currentPlayer
      = false := by
    simp only [placePiece, hboard]
    rw [checkWin_writeCell]
    cases s.currentPlayer <;> decide
  have hdraw : checkDraw (placePiece s 7 7).boardState = false := by
    simp only [placePiece, hboard]
    cases s.currentPlayer <;> decide
  unfold makeAiMove
  simp only [hactive, Bool.not_true, Bool.false_eq_true, if_false, hmove, hwin, hdraw]

/-- C17, the failing run: black plays the centre against the machine and restarts
before the timer fires.  The state is reachable, black is to move and a timer is
pending; when it fires, `makeAiMove` places a black stone on the centre, and then
the machine is thinking again with a new timer pending. -/
theorem machine_plays_black_after_restart :
    Reachable "" restartedWhileThinking
    ∧ restartedWhileThinking.currentPlayer = Player.black
    ∧ restartedWhileThinking.gameMode = GameMode.pve
    ∧ restartedWhileThinking.boardState = emptyBoard
    ∧ restartedWhileThinking.pendingAiMoves = 1
    ∧ ∀ u : Draw,
        (aiTimerFires restartedWhileThinking u).boardState
          = writeCell emptyBoard 7 7 (some Player.black)
        ∧ (aiTimerFires restartedWhileThinking u).gameActive = true
        ∧ (aiTimerFires restartedWhileThinking u).currentPlayer = Player.white
        ∧ (aiTimerFires restartedWhileThinking u).isAiThinking = true
        ∧ (aiTimerFires restartedWhileThinking u).pendingAiMoves = 1 := by
  have hpend : restartedWhileThinking.pendingAiMoves = 1 := by decide
  refine ⟨?_, rfl, by decide, rfl, hpend, ?_⟩
  · exact Reachable.step (Reachable.step Reachable.init (Step.click _ 7 7 (by decide)))
      (Step.restart _)
  · intro u
    have hfire : aiTimerFires restartedWhileThinking u
        = switchTurn { placePiece { restartedWhileThinking with pendingAiMoves := 0 } 7 7 with
            isAiThinking := false } := by
      unfold aiTimerFires
      rw [if_neg (by rw [hpend]; decide), hpend]
      exact makeAiMove_on_emptyBoard _ u rfl rfl (by decide)
    rw [hfire]
    refine ⟨?_, ?_, ?_, ?_, ?_⟩
    · rw [switchTurn_boardState]
      rfl
    · rw [switchTurn_gameActive]
      rfl
    · rw [switchTurn_currentPlayer]
      rfl
    · decide
    · decide

end Gomoku
